import Mathlib

set_option maxRecDepth 4000

/-!
Verification development for the crypto-arbitrage detection engine.

Shallow embedding of the core data structures and operations of the
engine (order book, cross-venue best-price aggregation, arbitrage
detector, risk gate, opportunity ring buffer), translated from the C++
sources.  Doubles are modelled as rationals, `std::chrono::nanoseconds`
timestamps as integers, and the fallible out-parameter pattern
(`bool f(T& out)`) as `Option`.
-/

namespace arbitrage

/-- Exchange identifiers (`core/types.h`). -/
inductive Exchange
  | OKX
  | BINANCE
  | BYBIT
deriving DecidableEq, Repr

/-- Instrument types (`core/types.h`). -/
inductive InstrumentType
  | SPOT
  | PERPETUAL
  | FUTURES
  | OPTION
deriving DecidableEq, Repr

/-- Order side (`core/types.h`). -/
inductive Side
  | BUY
  | SELL
deriving DecidableEq, Repr

/-- A single price level of an order book (`core/types.h`). -/
structure PriceLevel where
  price : ℚ
  quantity : ℚ
  order_count : ℕ
deriving DecidableEq, Repr

/-- Normalized per-venue ticker data (`core/types.h`, `struct MarketData`). -/
structure MarketData where
  symbol : String
  exchange : Exchange
  type : InstrumentType
  timestamp : ℤ
  bid_price : ℚ
  ask_price : ℚ
  bid_size : ℚ
  ask_size : ℚ
  last_price : ℚ
  volume_24h : ℚ
  funding_rate : ℚ
deriving DecidableEq, Repr

/-- `MarketData::mid_price`. -/
def MarketData.mid_price (d : MarketData) : ℚ := (d.bid_price + d.ask_price) / 2

/-- Index key of the market-data map (`market_data_manager.h`). -/
structure MarketDataKey where
  symbol : String
  exchange : Exchange
  type : InstrumentType
deriving DecidableEq, Repr

/-- Taker fee in basis points (`core/constants.h`, `TAKER_FEE_BPS = 4.0`). -/
def TAKER_FEE_BPS : ℚ := 4

/-- `core/constants.h`, `MAX_FUNDING_RATE_EXPOSURE = 0.01`. -/
def MAX_FUNDING_RATE_EXPOSURE : ℚ := 1 / 100

/-- `core/constants.h`, `MIN_LIQUIDITY_SCORE = 0.7`. -/
def MIN_LIQUIDITY_SCORE : ℚ := 7 / 10

/-- The exact value of `std::numeric_limits<double>::max()` (that is,
`(2^1024 - 2^971)`, written as a literal so that it evaluates cheaply),
the initial sentinel of the best-ask scan in
`MarketDataManager::get_best_prices`. -/
def DBL_MAX : ℚ := 179769313486231570814527423731704356798070567525844996598917476803157260780028538760589558632766878171540458953514382464234321326889464182768467546703537516986049910576551282076245490090389328944075868508455133942304583236903222948165808559332123348274797826204144723168738177180919299881250404026184124858368

/-! ## OrderBook (`market_data/order_book.h`, `order_book.cpp`)

The bid side is a `std::map` with a `greater` comparator (iterated in
descending price order) and the ask side a `std::map` in ascending
price order.  We embed each side as a price-sorted association list of
`PriceLevel`s with distinct prices; `map[key] = value` is ordered
insertion that overwrites an existing entry with the same price. -/

/-- Insert into the descending-by-price bid ladder, overwriting an
existing level with the same price (`bids_[bid.price] = bid`). -/
def insertDesc (l : PriceLevel) : List PriceLevel → List PriceLevel
  | [] => [l]
  | x :: xs =>
      if x.price < l.price then l :: x :: xs
      else if l.price = x.price then l :: xs
      else x :: insertDesc l xs

/-- Insert into the ascending-by-price ask ladder, overwriting an
existing level with the same price (`asks_[ask.price] = ask`). -/
def insertAsc (l : PriceLevel) : List PriceLevel → List PriceLevel
  | [] => [l]
  | x :: xs =>
      if l.price < x.price then l :: x :: xs
      else if l.price = x.price then l :: xs
      else x :: insertAsc l xs

/-- The mutable order-book state: both ladders plus `last_update_`. -/
structure OrderBook where
  bids : List PriceLevel
  asks : List PriceLevel
  last_update : ℤ
deriving DecidableEq, Repr

/-- A fresh, empty book (default-constructed `OrderBook`). -/
def OrderBook.empty : OrderBook := { bids := [], asks := [], last_update := 0 }

/-- `OrderBook::update`: clears both sides, then stores every supplied
level keyed by its price, and stamps the current time. -/
def OrderBook.update (_b : OrderBook) (bids asks : List PriceLevel) (now : ℤ) : OrderBook :=
  { bids := bids.foldl (fun m l => insertDesc l m) []
    asks := asks.foldl (fun m l => insertAsc l m) []
    last_update := now }

/-- `OrderBook::get_best_bid` (bool-and-out-parameter, as an `Option`). -/
def OrderBook.get_best_bid (b : OrderBook) : Option PriceLevel := b.bids.head?

/-- `OrderBook::get_best_ask`. -/
def OrderBook.get_best_ask (b : OrderBook) : Option PriceLevel := b.asks.head?

/-- `OrderBook::get_mid_price`: `(bid + ask) / 2` when both sides are
nonempty, and the numeric sentinel `0.0` otherwise. -/
def OrderBook.get_mid_price (b : OrderBook) : ℚ :=
  match b.get_best_bid, b.get_best_ask with
  | some bid, some ask => (bid.price + ask.price) / 2
  | _, _ => 0

/-- `OrderBook::get_spread`: `ask - bid` when both sides are nonempty,
and the numeric sentinel `0.0` otherwise. -/
def OrderBook.get_spread (b : OrderBook) : ℚ :=
  match b.get_best_bid, b.get_best_ask with
  | some bid, some ask => ask.price - bid.price
  | _, _ => 0

/-- `OrderBook::is_valid`: both sides nonempty and best bid below best ask. -/
def OrderBook.is_valid (b : OrderBook) : Bool :=
  match b.bids, b.asks with
  | bh :: _, ah :: _ => decide (bh.price < ah.price)
  | _, _ => false

/-- `OrderBook::clear`: empties both ladders; `last_update_` is not touched. -/
def OrderBook.clear (b : OrderBook) : OrderBook :=
  { bids := [], asks := [], last_update := b.last_update }

/-- `OrderBook::get_last_update`. -/
def OrderBook.get_last_update (b : OrderBook) : ℤ := b.last_update

/-- `OrderBook::Snapshot`. -/
structure Snapshot where
  bids : List PriceLevel
  asks : List PriceLevel
  timestamp : ℤ
deriving DecidableEq, Repr

/-- `OrderBook::get_snapshot`: copies out both ladders and the stamp. -/
def OrderBook.get_snapshot (b : OrderBook) : Snapshot :=
  { bids := b.bids, asks := b.asks, timestamp := b.last_update }

/-! ### VWAP (`OrderBook::calculate_vwap`, `calculate_vwap_simd`)

`calculate_vwap_simd` runs two loops over the level list: a vectorized
loop that consumes four whole levels at a time as long as the whole
batch fits under the target, and a scalar remainder loop that fills
each level up to the remaining target.  Both are embedded as
accumulator-passing recursions over the list. -/

/-- The scalar remainder loop of `calculate_vwap_simd`: fill
`min(target - total, level.quantity)` from each level while the filled
total is below the target. -/
def vwapScalarLoop : List PriceLevel → ℚ → ℚ → ℚ → ℚ × ℚ
  | [], _, tv, tq => (tv, tq)
  | l :: ls, target, tv, tq =>
      if tq < target then
        let fill := min (target - tq) l.quantity
        vwapScalarLoop ls target (tv + l.price * fill) (tq + fill)
      else (tv, tq)

/-- The vectorized loop of `calculate_vwap_simd`: while at least four
levels remain and the filled total is below the target, add all four
levels whole if the whole batch fits, otherwise break to the scalar
loop over the remaining levels. -/
def vwapBatchLoop : List PriceLevel → ℚ → ℚ → ℚ → ℚ × ℚ
  | a :: b :: c :: d :: rest, target, tv, tq =>
      if tq < target then
        let batch := a.quantity + b.quantity + c.quantity + d.quantity
        if tq + batch ≤ target then
          vwapBatchLoop rest target
            (tv + a.price * a.quantity + b.price * b.quantity
                + c.price * c.quantity + d.price * d.quantity)
            (tq + batch)
        else vwapScalarLoop (a :: b :: c :: d :: rest) target tv tq
      else (tv, tq)
  | ls, target, tv, tq => vwapScalarLoop ls target tv tq

/-- `OrderBook::calculate_vwap_simd`. -/
def calculate_vwap_simd (levels : List PriceLevel) (target : ℚ) : ℚ :=
  if levels = [] ∨ target ≤ 0 then 0
  else
    let r := vwapBatchLoop levels target 0 0
    if 0 < r.2 then r.1 / r.2 else 0

/-- `OrderBook::calculate_vwap`: a buy sweeps the ask ladder (ascending
price), a sell sweeps the bid ladder (descending price). -/
def OrderBook.calculate_vwap (b : OrderBook) (side : Side) (target : ℚ) : ℚ :=
  match side with
  | Side.BUY => calculate_vwap_simd b.asks target
  | Side.SELL => calculate_vwap_simd b.bids target

/-- The specification's scalar best-first sweep (§4.1 `vwap`): fill
greedily level by level until the target quantity is reached and return
the volume-weighted average of the filled quantity.  Stated for
comparison with the vectorized implementation. -/
def vwap_spec (levels : List PriceLevel) (target : ℚ) : ℚ :=
  if levels = [] ∨ target ≤ 0 then 0
  else
    let r := vwapScalarLoop levels target 0 0
    if 0 < r.2 then r.1 / r.2 else 0

/-- Total quantity carried by a list of levels. -/
def sumQ (ls : List PriceLevel) : ℚ := (ls.map (fun l => l.quantity)).sum

/-- Total price-times-quantity value carried by a list of levels. -/
def sumPQ (ls : List PriceLevel) : ℚ := (ls.map (fun l => l.price * l.quantity)).sum

/-! ## MarketDataManager (`market_data/market_data_manager.cpp`)

The concurrent hash map `market_data_` is embedded as a partial
function from keys to records; `get_market_data` is a lookup. -/

/-- The state of the `market_data_` map. -/
def MarketDataStore := MarketDataKey → Option MarketData

/-- `MarketDataManager::get_market_data`. -/
def get_market_data (store : MarketDataStore) (key : MarketDataKey) : Option MarketData :=
  store key

/-- `MarketDataManager::BestPrices`.  The two exchange fields are
uninitialized until the scan's first strict improvement; that state is
modelled as `none`. -/
structure BestPrices where
  best_bid : ℚ
  best_ask : ℚ
  best_bid_exchange : Option Exchange
  best_ask_exchange : Option Exchange
  best_bid_size : ℚ
  best_ask_size : ℚ
deriving DecidableEq, Repr

/-- The loop body of `MarketDataManager::get_best_prices`: for one
exchange, take its record if present and raise the running best bid /
lower the running best ask on strict improvement. -/
def considerVenue (store : MarketDataStore) (symbol : String) (type : InstrumentType)
    (acc : BestPrices × Bool) (exchange : Exchange) : BestPrices × Bool :=
  match store ⟨symbol, exchange, type⟩ with
  | none => acc
  | some data =>
      let b1 := if acc.1.best_bid < data.bid_price then
          { acc.1 with best_bid := data.bid_price, best_bid_exchange := some exchange,
                        best_bid_size := data.bid_size }
        else acc.1
      let b2 := if data.ask_price < b1.best_ask then
          { b1 with best_ask := data.ask_price, best_ask_exchange := some exchange,
                     best_ask_size := data.ask_size }
        else b1
      (b2, true)

/-- The fixed scan order of `get_best_prices`:
`{Exchange::OKX, Exchange::BINANCE, Exchange::BYBIT}`. -/
def exchangesOrder : List Exchange := [Exchange.OKX, Exchange.BINANCE, Exchange.BYBIT]

/-- Position of an exchange in the fixed scan order. -/
def venueIdx : Exchange → ℕ
  | Exchange.OKX => 0
  | Exchange.BINANCE => 1
  | Exchange.BYBIT => 2

/-- The scan's starting values: `best_bid = 0`,
`best_ask = numeric_limits<double>::max()`, exchanges uninitialized. -/
def bpInit : BestPrices :=
  { best_bid := 0, best_ask := DBL_MAX, best_bid_exchange := none,
    best_ask_exchange := none, best_bid_size := 0, best_ask_size := 0 }

/-- `MarketDataManager::get_best_prices`: scan the three exchanges in
fixed order from the sentinel start; report `none` when no exchange
has data (the `found` flag). -/
def get_best_prices (store : MarketDataStore) (symbol : String) (type : InstrumentType) :
    Option BestPrices :=
  let r := exchangesOrder.foldl (considerVenue store symbol type) (bpInit, false)
  if r.2 then some r.1 else none

/-! ## Detector data model (`core/types.h`, `arbitrage_detector.h`) -/

/-- One leg of an arbitrage opportunity (`ArbitrageOpportunity::Leg`). -/
structure Leg where
  symbol : String
  exchange : Exchange
  side : Side
  price : ℚ
  quantity : ℚ
  type : InstrumentType
  is_synthetic : Bool
deriving DecidableEq, Repr

/-- `struct ArbitrageOpportunity` (the generated string id is omitted;
`timestamp` is the creation time in nanoseconds). -/
structure ArbitrageOpportunity where
  timestamp : ℤ
  legs : List Leg
  expected_profit : ℚ
  profit_percentage : ℚ
  required_capital : ℚ
  execution_risk : ℚ
  funding_risk : ℚ
  liquidity_score : ℚ
  ttl_ms : ℕ
  is_executable : Bool
deriving DecidableEq, Repr

/-- The detector's tunables (`min_profit_threshold_`, `max_position_size_`,
`opportunity_ttl_ms_`). -/
structure DetectorConfig where
  min_profit_threshold : ℚ
  max_position_size : ℚ
  opportunity_ttl_ms : ℕ
deriving DecidableEq, Repr

/-- `ArbitrageDetector::calculate_execution_risk` (reads only the legs
of the opportunity): +0.3 when any leg sits on a different exchange
than the first, +0.2 per synthetic leg, capped at 1.0. -/
def calculate_execution_risk (legs : List Leg) : ℚ :=
  let cross : Bool :=
    match legs with
    | [] => false
    | l0 :: rest => rest.any (fun l => l.exchange ≠ l0.exchange)
  let base : ℚ := if cross then 3 / 10 else 0
  let risk := legs.foldl (fun r l => if l.is_synthetic then r + 2 / 10 else r) base
  min risk 1

/-- `ArbitrageDetector::create_spot_opportunity`. -/
def create_spot_opportunity (symbol : String) (buy_exchange sell_exchange : Exchange)
    (buy_data sell_data : MarketData) (cfg : DetectorConfig) (now : ℤ) :
    ArbitrageOpportunity :=
  let max_quantity := min buy_data.ask_size sell_data.bid_size
  let buy_price := buy_data.ask_price
  let sell_price := sell_data.bid_price
  let legs : List Leg :=
    [ { symbol := symbol, exchange := buy_exchange, side := Side.BUY, price := buy_price,
        quantity := max_quantity, type := InstrumentType.SPOT, is_synthetic := false },
      { symbol := symbol, exchange := sell_exchange, side := Side.SELL, price := sell_price,
        quantity := max_quantity, type := InstrumentType.SPOT, is_synthetic := false } ]
  let gross_profit := (sell_price - buy_price) * max_quantity
  let fees := (buy_price + sell_price) * max_quantity * TAKER_FEE_BPS / 10000
  let expected_profit := gross_profit - fees
  let required_capital := buy_price * max_quantity
  { timestamp := now
    legs := legs
    expected_profit := expected_profit
    profit_percentage := expected_profit / (buy_price * max_quantity) * 100
    required_capital := required_capital
    execution_risk := calculate_execution_risk legs
    funding_risk := 0
    liquidity_score := 9 / 10
    ttl_ms := cfg.opportunity_ttl_ms
    is_executable := decide (0 < expected_profit) && decide (required_capital ≤ cfg.max_position_size) }

/-- The body of `ArbitrageDetector::detect_spot_arbitrage` for one
symbol: aggregate best prices, and when the best-bid and best-ask
exchanges differ and the fee-adjusted spread strictly exceeds the
threshold (`net_profit_bps > min_profit_threshold_`), construct the
two-leg spot opportunity from the two venues' records. -/
def detect_spot_symbol (store : MarketDataStore) (cfg : DetectorConfig) (now : ℤ)
    (symbol : String) : Option ArbitrageOpportunity :=
  match get_best_prices store symbol InstrumentType.SPOT with
  | none => none
  | some bp =>
      match bp.best_bid_exchange, bp.best_ask_exchange with
      | some bidEx, some askEx =>
          if bidEx ≠ askEx then
            let spread := bp.best_bid - bp.best_ask
            let spread_bps := spread / bp.best_ask * 10000
            let net_profit_bps := spread_bps - TAKER_FEE_BPS * 2
            if cfg.min_profit_threshold < net_profit_bps then
              match store ⟨symbol, askEx, InstrumentType.SPOT⟩,
                    store ⟨symbol, bidEx, InstrumentType.SPOT⟩ with
              | some buy_data, some sell_data =>
                  some (create_spot_opportunity symbol askEx bidEx buy_data sell_data cfg now)
              | _, _ => none
            else none
          else none
      | _, _ => none

/-- The symbols the detector watches
(`{"BTC-USDT", "ETH-USDT", "SOL-USDT"}`). -/
def watchedSymbols : List String := ["BTC-USDT", "ETH-USDT", "SOL-USDT"]

/-- `ArbitrageDetector::detect_spot_arbitrage` over the watched symbols. -/
def detect_spot_arbitrage (store : MarketDataStore) (cfg : DetectorConfig) (now : ℤ) :
    List ArbitrageOpportunity :=
  watchedSymbols.filterMap (detect_spot_symbol store cfg now)

/-! ## SyntheticPricer (`synthetic/synthetic_pricer.cpp`) -/

/-- `SyntheticPricer::get_funding_rate`. -/
def get_funding_rate (store : MarketDataStore) (symbol : String) (exchange : Exchange) : ℚ :=
  match store ⟨symbol, exchange, InstrumentType.PERPETUAL⟩ with
  | some data => data.funding_rate
  | none => 0

/-- `SyntheticPricer::calculate_basis`: perpetual-minus-spot mid on one
exchange in basis points, `0.0` when either record is missing. -/
def calculate_basis (store : MarketDataStore) (underlying : String)
    (synthetic_type : InstrumentType) (exchange : Exchange) : ℚ :=
  match store ⟨underlying, exchange, InstrumentType.SPOT⟩,
        store ⟨underlying, exchange, synthetic_type⟩ with
  | some spot_data, some synthetic_data =>
      (synthetic_data.mid_price - spot_data.mid_price) / spot_data.mid_price * 10000
  | _, _ => 0

/-- `MultiLegSyntheticPricer::calculate_synthetic_price` for a SPOT
target: best perpetual bid across venues, adjusted by the funding rate
of the best-bid venue. -/
def calculate_synthetic_price (store : MarketDataStore) (underlying : String) : ℚ :=
  match get_best_prices store underlying InstrumentType.PERPETUAL with
  | some perp_prices =>
      let funding_rate :=
        match perp_prices.best_bid_exchange with
        | some e => get_funding_rate store underlying e
        | none => 0
      let adjustment := 1 - funding_rate / 365 / 3
      perp_prices.best_bid * adjustment
  | none => 0

/-- `SyntheticPricer::SyntheticArbitrage`. -/
structure SyntheticArbitrage where
  symbol : String
  spot_type : InstrumentType
  synthetic_type : InstrumentType
  spot_exchange : Exchange
  synthetic_exchange : Exchange
  spot_price : ℚ
  synthetic_price : ℚ
  fair_value : ℚ
  basis_bps : ℚ
  mispricing_bps : ℚ
  expected_profit_bps : ℚ
  max_size : ℚ
  funding_impact : ℚ
  execution_risk : ℚ
deriving DecidableEq, Repr

/-- The body of `SyntheticPricer::find_arbitrage_opportunities` for one
(symbol, spot exchange, perp exchange) combination: record a candidate
whenever both records exist and `|mispricing_bps| > min_profit_bps`;
the 10 bps fee is subtracted only afterwards, into
`expected_profit_bps`. -/
def find_arbitrage_candidate (store : MarketDataStore) (min_profit_bps : ℚ)
    (symbol : String) (spot_exchange perp_exchange : Exchange) :
    Option SyntheticArbitrage :=
  match store ⟨symbol, spot_exchange, InstrumentType.SPOT⟩,
        store ⟨symbol, perp_exchange, InstrumentType.PERPETUAL⟩ with
  | some spot_data, some perp_data =>
      let synthetic_spot := calculate_synthetic_price store symbol
      let mispricing := synthetic_spot - spot_data.mid_price
      let mispricing_bps := mispricing / spot_data.mid_price * 10000
      if min_profit_bps < |mispricing_bps| then
        some
          { symbol := symbol
            spot_type := InstrumentType.SPOT
            synthetic_type := InstrumentType.PERPETUAL
            spot_exchange := spot_exchange
            synthetic_exchange := perp_exchange
            spot_price := spot_data.mid_price
            synthetic_price := perp_data.mid_price
            fair_value := synthetic_spot
            basis_bps := calculate_basis store symbol InstrumentType.PERPETUAL perp_exchange
            mispricing_bps := mispricing_bps
            expected_profit_bps := |mispricing_bps| - 10
            max_size := min spot_data.bid_size perp_data.ask_size
            funding_impact := get_funding_rate store symbol perp_exchange
            execution_risk := 3 / 10 }
      else none
  | _, _ => none

/-- `SyntheticPricer::find_arbitrage_opportunities`: all candidates over
the watched symbols and every (spot exchange, perp exchange) pair. -/
def find_arbitrage_opportunities (store : MarketDataStore) (min_profit_bps : ℚ) :
    List SyntheticArbitrage :=
  watchedSymbols.flatMap fun symbol =>
    exchangesOrder.flatMap fun spot_exchange =>
      exchangesOrder.filterMap fun perp_exchange =>
        find_arbitrage_candidate store min_profit_bps symbol spot_exchange perp_exchange

/-- `ArbitrageDetector::detect_synthetic_arbitrage`: wrap every
candidate of the pricer into a two-leg opportunity, unconditionally
executable, with `profit_percentage = expected_profit_bps / 100`. -/
def detect_synthetic_arbitrage (store : MarketDataStore) (cfg : DetectorConfig) (now : ℤ) :
    List ArbitrageOpportunity :=
  (find_arbitrage_opportunities store cfg.min_profit_threshold).map fun arb =>
    { timestamp := now
      legs :=
        [ { symbol := arb.symbol, exchange := arb.spot_exchange, side := Side.BUY,
            price := arb.spot_price, quantity := arb.max_size, type := arb.spot_type,
            is_synthetic := false },
          { symbol := arb.symbol, exchange := arb.synthetic_exchange, side := Side.SELL,
            price := arb.synthetic_price, quantity := arb.max_size, type := arb.synthetic_type,
            is_synthetic := true } ]
      expected_profit := arb.expected_profit_bps / 10000 * arb.spot_price * arb.max_size
      profit_percentage := arb.expected_profit_bps / 100
      required_capital := arb.spot_price * arb.max_size
      execution_risk := arb.execution_risk
      funding_risk := arb.funding_impact
      liquidity_score := 8 / 10
      ttl_ms := cfg.opportunity_ttl_ms
      is_executable := true }

/-! ## Opportunity TTL cleanup (`ArbitrageDetector::cleanup_expired_opportunities`) -/

/-- `cleanup_expired_opportunities` over the stored list: an
opportunity is removed when its age, truncated to whole milliseconds
by `duration_cast` (C++ integer division toward zero, `Int.tdiv`),
strictly exceeds `ttl_ms`. -/
def cleanup_expired_opportunities (opps : List ArbitrageOpportunity) (now : ℤ) :
    List ArbitrageOpportunity :=
  opps.filter fun opp => decide ((now - opp.timestamp).tdiv 1000000 ≤ (opp.ttl_ms : ℤ))

/-- The detector's opportunity-related state: its own live list, and
the copies consumers received by value via `notify_callbacks`. -/
structure DetectorState where
  current_opportunities : List ArbitrageOpportunity
  delivered : List ArbitrageOpportunity
deriving DecidableEq, Repr

/-- The cleanup pass acting on the detector state: only the stored
list is filtered. -/
def DetectorState.cleanup (st : DetectorState) (now : ℤ) : DetectorState :=
  { st with current_opportunities := cleanup_expired_opportunities st.current_opportunities now }

/-! ## RiskManager (`risk/risk_manager.cpp`) -/

/-- `struct PositionInfo` (fields the risk checks read). -/
structure PositionInfo where
  symbol : String
  exchange : Exchange
  type : InstrumentType
  side : Side
  quantity : ℚ
  average_price : ℚ
  current_price : ℚ
deriving DecidableEq, Repr

/-- The `RiskManager` state: limits and the live positions map
(keyed by symbol and exchange). -/
structure RiskState where
  max_portfolio_exposure : ℚ
  position_limits : List (String × ℚ)
  exchange_limits : List (Exchange × ℚ)
  positions : List ((String × Exchange) × PositionInfo)
deriving DecidableEq, Repr

/-- Lookup in an association list (`std::unordered_map::find`). -/
def lookupAssoc {α β : Type} [DecidableEq α] (m : List (α × β)) (k : α) : Option β :=
  (m.find? fun p => p.1 = k).map (fun p => p.2)

/-- `RiskManager::calculate_position_exposure`. -/
def calculate_position_exposure (p : PositionInfo) : ℚ := p.quantity * p.current_price

/-- `RiskManager::calculate_total_exposure`. -/
def calculate_total_exposure (st : RiskState) : ℚ :=
  st.positions.foldl (fun acc p => acc + calculate_position_exposure p.2) 0

/-- `RiskManager::check_position_limit`: with no configured per-symbol
limit the raw size alone is compared against 50000; otherwise the sum
of all current position quantities for the symbol plus the raw (never
sign-adjusted) size is compared against the limit. -/
def check_position_limit (st : RiskState) (symbol : String) (size : ℚ) : Bool :=
  match lookupAssoc st.position_limits symbol with
  | none => decide (size ≤ 50000)
  | some limit =>
      let current_position :=
        st.positions.foldl (fun acc p => if p.1.1 = symbol then acc + p.2.quantity else acc) 0
      decide (current_position + size ≤ limit)

/-- `RiskManager::check_exchange_exposure` (defined in the source but
never called from `check_opportunity_risk`). -/
def check_exchange_exposure (st : RiskState) (exchange : Exchange) (exposure : ℚ) : Bool :=
  match lookupAssoc st.exchange_limits exchange with
  | none => true
  | some limit =>
      let current_exposure :=
        st.positions.foldl
          (fun acc p => if p.1.2 = exchange then acc + calculate_position_exposure p.2 else acc) 0
      decide (current_exposure + exposure ≤ limit)

/-- `RiskManager::check_opportunity_risk`: execution risk against the
literal 0.7, funding risk (unconditionally), liquidity, the per-leg
position check, and total portfolio exposure — in that order; there is
no per-venue exposure check. -/
def check_opportunity_risk (st : RiskState) (opp : ArbitrageOpportunity) : Bool :=
  if 7 / 10 < opp.execution_risk then false
  else if MAX_FUNDING_RATE_EXPOSURE < opp.funding_risk then false
  else if opp.liquidity_score < MIN_LIQUIDITY_SCORE then false
  else if ¬ (opp.legs.all fun leg => check_position_limit st leg.symbol leg.quantity) then false
  else if st.max_portfolio_exposure < calculate_total_exposure st + opp.required_capital then false
  else true

/-- Modelled from the spec (§4.7): the six ordered checks of the risk
gate as the specification states them — funding risk only when a leg
is a perpetual, per-leg position limits on the absolute value of
current position plus the leg's signed quantity (default limit 50000
when unset), projected per-venue exposure against
`per_venue_exposure_limit`, and total portfolio exposure. -/
def check_opportunity_risk_spec (st : RiskState) (opp : ArbitrageOpportunity) : Bool :=
  if 7 / 10 < opp.execution_risk then false
  else if (opp.legs.any fun l => l.type = InstrumentType.PERPETUAL)
          && decide (MAX_FUNDING_RATE_EXPOSURE < opp.funding_risk) then false
  else if opp.liquidity_score < MIN_LIQUIDITY_SCORE then false
  else if ¬ (opp.legs.all fun leg =>
      let limit := (lookupAssoc st.position_limits leg.symbol).getD 50000
      let current_position :=
        st.positions.foldl (fun acc p => if p.1.1 = leg.symbol then acc + p.2.quantity else acc) 0
      let signed_qty := if leg.side = Side.BUY then leg.quantity else -leg.quantity
      decide (|current_position + signed_qty| ≤ limit)) then false
  else if ¬ (opp.legs.all fun leg =>
      match lookupAssoc st.exchange_limits leg.exchange with
      | none => true
      | some limit =>
          let current_exposure :=
            st.positions.foldl
              (fun acc p =>
                if p.1.2 = leg.exchange then acc + calculate_position_exposure p.2 else acc) 0
          let projected :=
            opp.legs.foldl
              (fun acc l => if l.exchange = leg.exchange then acc + l.price * l.quantity else acc) 0
          decide (current_exposure + projected ≤ limit)) then false
  else if st.max_portfolio_exposure < calculate_total_exposure st + opp.required_capital then false
  else true

/-! ## CircularBuffer (`synthetic/futures_pricer.h`)

`CircularBuffer<T, N>` keeps an `N`-slot array with a write and a read
cursor; the slot before the read cursor is kept free, so at most
`N - 1` elements are stored.  The single-producer single-consumer use
is embedded sequentially. -/

/-- The buffer state. -/
structure CircularBuffer (T : Type) (N : ℕ) where
  buffer : ℕ → T
  write_pos : ℕ
  read_pos : ℕ

/-- A default-constructed buffer (both cursors at 0). -/
def CircularBuffer.empty {T : Type} [Inhabited T] (N : ℕ) : CircularBuffer T N :=
  { buffer := fun _ => default, write_pos := 0, read_pos := 0 }

/-- `CircularBuffer::push`: when advancing the write cursor would meet
the read cursor the buffer is full, the call fails and the NEW item is
discarded; otherwise the item is stored at the write cursor. -/
def CircularBuffer.push {T : Type} {N : ℕ} (s : CircularBuffer T N) (item : T) :
    Bool × CircularBuffer T N :=
  if (s.write_pos + 1) % N = s.read_pos then (false, s)
  else
    (true,
     { s with
        buffer := fun i => if i = s.write_pos then item else s.buffer i
        write_pos := (s.write_pos + 1) % N })

/-- `CircularBuffer::pop`: fails when the cursors meet (buffer empty),
otherwise yields the element at the read cursor. -/
def CircularBuffer.pop {T : Type} {N : ℕ} (s : CircularBuffer T N) :
    Option (T × CircularBuffer T N) :=
  if s.read_pos = s.write_pos then none
  else some (s.buffer s.read_pos, { s with read_pos := (s.read_pos + 1) % N })

/-- Push a whole production sequence, dropping what the buffer refuses. -/
def CircularBuffer.pushAll {T : Type} {N : ℕ} (s : CircularBuffer T N) (xs : List T) :
    CircularBuffer T N :=
  xs.foldl (fun s x => (s.push x).2) s

/-- Pop repeatedly (with fuel) until the buffer reports empty: the
sequence a consumer observes. -/
def CircularBuffer.drain {T : Type} {N : ℕ} : CircularBuffer T N → ℕ → List T
  | _, 0 => []
  | s, fuel + 1 =>
      match s.pop with
      | none => []
      | some (x, s') => x :: s'.drain fuel

/-- The unrolled three-venue scan of `get_best_prices` (OKX, then
BINANCE, then BYBIT), for stating per-step lemmas. -/
def bpFold (store : MarketDataStore) (symbol : String) (type : InstrumentType) :
    BestPrices × Bool :=
  considerVenue store symbol type
    (considerVenue store symbol type
      (considerVenue store symbol type (bpInit, false) Exchange.OKX) Exchange.BINANCE)
    Exchange.BYBIT

/-! ## Concrete inputs used by counterexamples and witnesses -/

/-- OKX spot record for the best-price tie scenario: bid 100, size 1. -/
def mdTieOkx : MarketData :=
  { symbol := "BTC-USDT", exchange := Exchange.OKX, type := InstrumentType.SPOT,
    timestamp := 0, bid_price := 100, ask_price := 101, bid_size := 1, ask_size := 1,
    last_price := 100, volume_24h := 0, funding_rate := 0 }

/-- BINANCE spot record for the tie scenario: identical best prices but
larger sizes (bid 100, size 5). -/
def mdTieBin : MarketData :=
  { symbol := "BTC-USDT", exchange := Exchange.BINANCE, type := InstrumentType.SPOT,
    timestamp := 0, bid_price := 100, ask_price := 101, bid_size := 5, ask_size := 5,
    last_price := 100, volume_24h := 0, funding_rate := 0 }

/-- Store with two venues quoting identical best prices, sizes 1 vs 5. -/
def storeTie : MarketDataStore := fun k =>
  if k = ⟨"BTC-USDT", Exchange.OKX, InstrumentType.SPOT⟩ then some mdTieOkx
  else if k = ⟨"BTC-USDT", Exchange.BINANCE, InstrumentType.SPOT⟩ then some mdTieBin
  else none

/-- OKX spot record for the threshold-boundary scenario: ask 10000. -/
def mdEdgeOkx : MarketData :=
  { symbol := "BTC-USDT", exchange := Exchange.OKX, type := InstrumentType.SPOT,
    timestamp := 0, bid_price := 9000, ask_price := 10000, bid_size := 2, ask_size := 1,
    last_price := 0, volume_24h := 0, funding_rate := 0 }

/-- BINANCE spot record for the threshold-boundary scenario: bid 10010,
so the cross-venue spread is exactly 10 bps and the fee-adjusted edge
is exactly 2 bps. -/
def mdEdgeBin : MarketData :=
  { symbol := "BTC-USDT", exchange := Exchange.BINANCE, type := InstrumentType.SPOT,
    timestamp := 0, bid_price := 10010, ask_price := 20000, bid_size := 1, ask_size := 3,
    last_price := 0, volume_24h := 0, funding_rate := 0 }

/-- Store for the spot-detection boundary scenario. -/
def storeEdge : MarketDataStore := fun k =>
  if k = ⟨"BTC-USDT", Exchange.OKX, InstrumentType.SPOT⟩ then some mdEdgeOkx
  else if k = ⟨"BTC-USDT", Exchange.BINANCE, InstrumentType.SPOT⟩ then some mdEdgeBin
  else none

/-- The position held in the risk scenario: 1 BTC on OKX marked at
299000 USD. -/
def posBtcOkx : PositionInfo :=
  { symbol := "BTC-USDT", exchange := Exchange.OKX, type := InstrumentType.SPOT,
    side := Side.BUY, quantity := 1, average_price := 299000, current_price := 299000 }

/-- The risk-manager state of the scenario: the constructor's default
limits and one live OKX position worth 299000 USD, just under the
300000 USD OKX venue limit. -/
def riskStateVenue : RiskState :=
  { max_portfolio_exposure := 1000000
    position_limits := [("BTC-USDT", 10), ("ETH-USDT", 100), ("SOL-USDT", 1000)]
    exchange_limits := [(Exchange.OKX, 300000), (Exchange.BINANCE, 400000),
                        (Exchange.BYBIT, 300000)]
    positions := [(("BTC-USDT", Exchange.OKX), posBtcOkx)] }

/-- An opportunity whose two legs both execute on OKX with a combined
notional of 500100 USD — far beyond the remaining OKX venue headroom —
while passing every check the code actually performs. -/
def oppVenueHeavy : ArbitrageOpportunity :=
  { timestamp := 0
    legs := [ { symbol := "BTC-USDT", exchange := Exchange.OKX, side := Side.BUY,
                price := 250000, quantity := 1, type := InstrumentType.SPOT,
                is_synthetic := false },
              { symbol := "BTC-USDT", exchange := Exchange.OKX, side := Side.SELL,
                price := 250100, quantity := 1, type := InstrumentType.SPOT,
                is_synthetic := false } ]
    expected_profit := 100
    profit_percentage := 1 / 25
    required_capital := 250000
    execution_risk := 3 / 10
    funding_risk := 0
    liquidity_score := 9 / 10
    ttl_ms := 500
    is_executable := true }

/-- OKX spot record of the synthetic-mispricing scenario: a flat book
at 10000, so the mid is 10000. -/
def mdSynSpot : MarketData :=
  { symbol := "BTC-USDT", exchange := Exchange.OKX, type := InstrumentType.SPOT,
    timestamp := 0, bid_price := 10000, ask_price := 10000, bid_size := 1, ask_size := 1,
    last_price := 0, volume_24h := 0, funding_rate := 0 }

/-- OKX perpetual record of the synthetic-mispricing scenario: a flat
book at 10005 with funding rate 0, i.e. 5 bps above spot — above the
2 bps threshold but below the 10 bps fee the pricer subtracts. -/
def mdSynPerp : MarketData :=
  { symbol := "BTC-USDT", exchange := Exchange.OKX, type := InstrumentType.PERPETUAL,
    timestamp := 0, bid_price := 10005, ask_price := 10005, bid_size := 1, ask_size := 1,
    last_price := 0, volume_24h := 0, funding_rate := 0 }

/-- Store of the synthetic-mispricing scenario. -/
def storeSyn : MarketDataStore := fun k =>
  if k = ⟨"BTC-USDT", Exchange.OKX, InstrumentType.SPOT⟩ then some mdSynSpot
  else if k = ⟨"BTC-USDT", Exchange.OKX, InstrumentType.PERPETUAL⟩ then some mdSynPerp
  else none

/-- The candidate the synthetic pricer records for that store at a
2 bps threshold: 5 bps of gross mispricing, net −5 bps after fees. -/
def arbSyn : SyntheticArbitrage :=
  { symbol := "BTC-USDT", spot_type := InstrumentType.SPOT,
    synthetic_type := InstrumentType.PERPETUAL, spot_exchange := Exchange.OKX,
    synthetic_exchange := Exchange.OKX, spot_price := 10000, synthetic_price := 10005,
    fair_value := 10005, basis_bps := 5, mispricing_bps := 5, expected_profit_bps := -5,
    max_size := 1, funding_impact := 0, execution_risk := 3 / 10 }

/-- The opportunity the detector wraps around `arbSyn`: a negative
expected profit of −5 USD, marked executable nevertheless. -/
def oppSyn : ArbitrageOpportunity :=
  { timestamp := 0
    legs := [ { symbol := "BTC-USDT", exchange := Exchange.OKX, side := Side.BUY,
                price := 10000, quantity := 1, type := InstrumentType.SPOT,
                is_synthetic := false },
              { symbol := "BTC-USDT", exchange := Exchange.OKX, side := Side.SELL,
                price := 10005, quantity := 1, type := InstrumentType.PERPETUAL,
                is_synthetic := true } ]
    expected_profit := -5
    profit_percentage := -1 / 20
    required_capital := 10000
    execution_risk := 3 / 10
    funding_risk := 0
    liquidity_score := 8 / 10
    ttl_ms := 500
    is_executable := true }

/-- An opportunity created at t = 0 ns with a 100 ms TTL, used for the
cleanup scenario. -/
def oppStale : ArbitrageOpportunity :=
  { timestamp := 0, legs := [], expected_profit := 0, profit_percentage := 0,
    required_capital := 0, execution_risk := 0, funding_risk := 0, liquidity_score := 0,
    ttl_ms := 100, is_executable := true }

/-- Detector configuration with `min_profit_threshold = 2` bps: at the
boundary store the net edge equals the threshold exactly. -/
def cfgEdge : DetectorConfig :=
  { min_profit_threshold := 2, max_position_size := 100000, opportunity_ttl_ms := 500 }

/-- The same configuration with the threshold lowered to 1 bps, below
the 2 bps net edge of the boundary store. -/
def cfgBelow : DetectorConfig :=
  { min_profit_threshold := 1, max_position_size := 100000, opportunity_ttl_ms := 500 }

/-- A book holding only an ask ladder. -/
def bookAskOnly : OrderBook :=
  OrderBook.update OrderBook.empty [] [{ price := 100, quantity := 1, order_count := 1 }] 3

/-- A degenerate book with both sides present at price 0. -/
def bookZeroPrices : OrderBook :=
  OrderBook.update OrderBook.empty [{ price := 0, quantity := 1, order_count := 1 }]
    [{ price := 0, quantity := 2, order_count := 1 }] 3

/-- A small two-level concrete book used as the C7 witness input. -/
def bookTwoAsks : OrderBook :=
  OrderBook.update OrderBook.empty
    [{ price := 9, quantity := 1, order_count := 1 }]
    [{ price := 10, quantity := 2, order_count := 1 },
     { price := 11, quantity := 4, order_count := 1 }] 0

/-! ## Lemmas about the order-book ladders -/

/-- Every element of an ordered insert is the inserted level or an old one. -/
theorem mem_insertDesc {l x : PriceLevel} {ls : List PriceLevel}
    (h : l ∈ insertDesc x ls) : l = x ∨ l ∈ ls := by
  induction ls with
  | nil => simpa [insertDesc] using h
  | cons y ys ih =>
      simp only [insertDesc] at h
      split_ifs at h with h1 h2
      · simp only [List.mem_cons] at h ⊢; tauto
      · simp only [List.mem_cons] at h ⊢; tauto
      · simp only [List.mem_cons] at h ⊢
        rcases h with h | h
        · tauto
        · rcases ih h with h | h <;> tauto

theorem mem_insertAsc {l x : PriceLevel} {ls : List PriceLevel}
    (h : l ∈ insertAsc x ls) : l = x ∨ l ∈ ls := by
  induction ls with
  | nil => simpa [insertAsc] using h
  | cons y ys ih =>
      simp only [insertAsc] at h
      split_ifs at h with h1 h2
      · simp only [List.mem_cons] at h ⊢; tauto
      · simp only [List.mem_cons] at h ⊢; tauto
      · simp only [List.mem_cons] at h ⊢
        rcases h with h | h
        · tauto
        · rcases ih h with h | h <;> tauto

/-- An ordered insert always leaves a level at the inserted price. -/
theorem price_self_insertDesc (x : PriceLevel) (ls : List PriceLevel) :
    ∃ l ∈ insertDesc x ls, l.price = x.price := by
  induction ls with
  | nil => exact ⟨x, by simp [insertDesc]⟩
  | cons y ys ih =>
      simp only [insertDesc]
      split_ifs with h1 h2
      · exact ⟨x, by simp⟩
      · exact ⟨x, by simp⟩
      · rcases ih with ⟨l, hl, hp⟩
        exact ⟨l, by simp [hl], hp⟩

theorem price_self_insertAsc (x : PriceLevel) (ls : List PriceLevel) :
    ∃ l ∈ insertAsc x ls, l.price = x.price := by
  induction ls with
  | nil => exact ⟨x, by simp [insertAsc]⟩
  | cons y ys ih =>
      simp only [insertAsc]
      split_ifs with h1 h2
      · exact ⟨x, by simp⟩
      · exact ⟨x, by simp⟩
      · rcases ih with ⟨l, hl, hp⟩
        exact ⟨l, by simp [hl], hp⟩

/-- An ordered insert keeps every price that was present before. -/
theorem price_mem_insertDesc {p : ℚ} (x : PriceLevel) {ls : List PriceLevel}
    (h : ∃ l ∈ ls, l.price = p) : ∃ l ∈ insertDesc x ls, l.price = p := by
  induction ls with
  | nil => simpa using h
  | cons y ys ih =>
      simp only [insertDesc]
      rcases h with ⟨l, hl, hp⟩
      split_ifs with h1 h2
      · exact ⟨l, by simp [List.mem_cons.mp hl], hp⟩
      · rcases List.mem_cons.mp hl with rfl | hmem
        · exact ⟨x, by simp, by rw [h2, hp]⟩
        · exact ⟨l, by simp [hmem], hp⟩
      · rcases List.mem_cons.mp hl with rfl | hmem
        · exact ⟨l, by simp, hp⟩
        · rcases ih ⟨l, hmem, hp⟩ with ⟨l', hl', hp'⟩
          exact ⟨l', by simp [hl'], hp'⟩

theorem price_mem_insertAsc {p : ℚ} (x : PriceLevel) {ls : List PriceLevel}
    (h : ∃ l ∈ ls, l.price = p) : ∃ l ∈ insertAsc x ls, l.price = p := by
  induction ls with
  | nil => simpa using h
  | cons y ys ih =>
      simp only [insertAsc]
      rcases h with ⟨l, hl, hp⟩
      split_ifs with h1 h2
      · exact ⟨l, by simp [List.mem_cons.mp hl], hp⟩
      · rcases List.mem_cons.mp hl with rfl | hmem
        · exact ⟨x, by simp, by rw [h2, hp]⟩
        · exact ⟨l, by simp [hmem], hp⟩
      · rcases List.mem_cons.mp hl with rfl | hmem
        · exact ⟨l, by simp, hp⟩
        · rcases ih ⟨l, hmem, hp⟩ with ⟨l', hl', hp'⟩
          exact ⟨l', by simp [hl'], hp'⟩

/-- Elements of the folded bid ladder come from the accumulator or the input. -/
theorem mem_foldl_insertDesc {l : PriceLevel} :
    ∀ (ls acc : List PriceLevel),
      l ∈ ls.foldl (fun m x => insertDesc x m) acc → l ∈ acc ∨ l ∈ ls := by
  intro ls
  induction ls with
  | nil => intro acc h; exact Or.inl h
  | cons x xs ih =>
      intro acc h
      rcases ih (insertDesc x acc) h with h' | h'
      · rcases mem_insertDesc h' with h'' | h''
        · exact Or.inr (by simp [h''])
        · exact Or.inl h''
      · exact Or.inr (by simp [h'])

theorem mem_foldl_insertAsc {l : PriceLevel} :
    ∀ (ls acc : List PriceLevel),
      l ∈ ls.foldl (fun m x => insertAsc x m) acc → l ∈ acc ∨ l ∈ ls := by
  intro ls
  induction ls with
  | nil => intro acc h; exact Or.inl h
  | cons x xs ih =>
      intro acc h
      rcases ih (insertAsc x acc) h with h' | h'
      · rcases mem_insertAsc h' with h'' | h''
        · exact Or.inr (by simp [h''])
        · exact Or.inl h''
      · exact Or.inr (by simp [h'])

/-- Every input price survives the folded bid ladder. -/
theorem price_mem_foldl_insertDesc {p : ℚ} :
    ∀ (ls acc : List PriceLevel),
      ((∃ l ∈ acc, l.price = p) ∨ (∃ l ∈ ls, l.price = p)) →
      ∃ l ∈ ls.foldl (fun m x => insertDesc x m) acc, l.price = p := by
  intro ls
  induction ls with
  | nil =>
      intro acc h
      rcases h with h | h
      · exact h
      · simpa using h
  | cons x xs ih =>
      intro acc h
      apply ih (insertDesc x acc)
      rcases h with h | ⟨l, hl, hp⟩
      · exact Or.inl (price_mem_insertDesc x h)
      · rcases List.mem_cons.mp hl with rfl | hmem
        · exact Or.inl (hp ▸ price_self_insertDesc l acc)
        · exact Or.inr ⟨l, hmem, hp⟩

theorem price_mem_foldl_insertAsc {p : ℚ} :
    ∀ (ls acc : List PriceLevel),
      ((∃ l ∈ acc, l.price = p) ∨ (∃ l ∈ ls, l.price = p)) →
      ∃ l ∈ ls.foldl (fun m x => insertAsc x m) acc, l.price = p := by
  intro ls
  induction ls with
  | nil =>
      intro acc h
      rcases h with h | h
      · exact h
      · simpa using h
  | cons x xs ih =>
      intro acc h
      apply ih (insertAsc x acc)
      rcases h with h | ⟨l, hl, hp⟩
      · exact Or.inl (price_mem_insertAsc x h)
      · rcases List.mem_cons.mp hl with rfl | hmem
        · exact Or.inl (hp ▸ price_self_insertAsc l acc)
        · exact Or.inr ⟨l, hmem, hp⟩

/-! ## C10 — clear() empties the ladders but keeps the timestamp -/

/-- C10: `clear()` empties both the bid and the ask side but leaves
`last_update_` unchanged: `get_last_update` returns the same value as
immediately before, `is_valid` turns false, and `get_snapshot` returns
empty sides carrying the pre-clear timestamp; in particular after any
`update` stamped `now`, the cleared book still reports `now`. -/
theorem clear_frame_C10 : ∀ (b : OrderBook) (bids asks : List PriceLevel) (now : ℤ),
    (b.clear).get_last_update = b.get_last_update ∧
    (b.clear).is_valid = false ∧
    (b.clear).get_snapshot = { bids := [], asks := [], timestamp := b.get_last_update } ∧
    ((b.update bids asks now).clear).get_last_update = now := by
  intro b bids asks now
  exact ⟨rfl, rfl, rfl, rfl⟩

/-! ## C2 — zero-quantity levels are stored, not removed -/

/-- C2 counterexample: `update` with a single bid level of quantity 0
stores that level — `get_best_bid` then reports a stored `PriceLevel`
with `quantity = 0`, so the book does hold a level with quantity ≤ 0
and a zero-quantity input is not treated as a removal. -/
theorem update_stores_zero_quantity_C2_cex :
    (OrderBook.update OrderBook.empty [{ price := 10, quantity := 0, order_count := 1 }] [] 7).bids
      = [{ price := 10, quantity := 0, order_count := 1 }] ∧
    (OrderBook.update OrderBook.empty [{ price := 10, quantity := 0, order_count := 1 }] [] 7).get_best_bid
      = some { price := 10, quantity := 0, order_count := 1 } := by
  constructor <;> rfl

/-- C2 amended: `OrderBook::update` replaces both sides with the
supplied levels verbatim, keyed by price (a later duplicate price
overwrites an earlier one): every stored level is one of the supplied
levels — whatever its quantity, zero included — and every supplied
price is present on the stored side. -/
theorem update_stores_levels_C2 : ∀ (b : OrderBook) (bids asks : List PriceLevel) (now : ℤ),
    (∀ l ∈ (OrderBook.update b bids asks now).bids, l ∈ bids) ∧
    (∀ l ∈ (OrderBook.update b bids asks now).asks, l ∈ asks) ∧
    (∀ l ∈ bids, ∃ l' ∈ (OrderBook.update b bids asks now).bids, l'.price = l.price) ∧
    (∀ l ∈ asks, ∃ l' ∈ (OrderBook.update b bids asks now).asks, l'.price = l.price) := by
  intro b bids asks now
  refine ⟨?_, ?_, ?_, ?_⟩
  · intro l hl
    rcases mem_foldl_insertDesc bids [] hl with h | h
    · simp at h
    · exact h
  · intro l hl
    rcases mem_foldl_insertAsc asks [] hl with h | h
    · simp at h
    · exact h
  · intro l hl
    exact price_mem_foldl_insertDesc bids [] (Or.inr ⟨l, hl, rfl⟩)
  · intro l hl
    exact price_mem_foldl_insertAsc asks [] (Or.inr ⟨l, hl, rfl⟩)

/-- C2 witness: the amended statement applied to a concrete update —
the zero-quantity ask the updated book stores is one of the supplied
levels. -/
theorem update_stores_levels_C2_witness :
    ({ price := 5, quantity := 0, order_count := 1 } : PriceLevel) ∈
      ([{ price := 5, quantity := 0, order_count := 1 }] : List PriceLevel) :=
  (update_stores_levels_C2 OrderBook.empty
      [{ price := 9, quantity := 2, order_count := 1 }]
      [{ price := 5, quantity := 0, order_count := 1 }] 3).2.1
      { price := 5, quantity := 0, order_count := 1 } (by decide)

/-! ## C6 — empty-side queries -/

/-- C6 counterexample: on a book whose bid side is empty, `mid()` and
`spread()` do not return "no value": they return the numeric result
`0.0` — the very value a fully two-sided (degenerate) book also
produces as its genuine mid.  Only `get_best_bid` signals absence. -/
theorem empty_side_mid_numeric_C6_cex :
    bookAskOnly.bids = [] ∧
    bookAskOnly.get_best_bid = none ∧
    bookAskOnly.get_mid_price = 0 ∧
    bookAskOnly.get_spread = 0 ∧
    bookZeroPrices.bids ≠ [] ∧
    bookZeroPrices.asks ≠ [] ∧
    bookZeroPrices.get_mid_price = 0 := by
  refine ⟨rfl, rfl, by with_unfolding_all decide, by with_unfolding_all decide,
    by with_unfolding_all decide, by with_unfolding_all decide, by with_unfolding_all decide⟩

/-- C6 amended: with one side empty, `get_best_bid`/`get_best_ask`
report no value, while `mid()` and `spread()` return the numeric
sentinel `0.0` (not an absent value), and `vwap` still sweeps the
available side only. -/
theorem empty_side_queries_C6 : ∀ (b : OrderBook) (target : ℚ),
    (b.bids = [] →
      b.get_best_bid = none ∧ b.get_mid_price = 0 ∧ b.get_spread = 0 ∧
      b.calculate_vwap Side.BUY target = calculate_vwap_simd b.asks target) ∧
    (b.asks = [] →
      b.get_best_ask = none ∧ b.get_mid_price = 0 ∧ b.get_spread = 0 ∧
      b.calculate_vwap Side.SELL target = calculate_vwap_simd b.bids target) := by
  intro b target
  constructor
  · intro h
    refine ⟨?_, ?_, ?_, rfl⟩ <;>
      simp [OrderBook.get_best_bid, OrderBook.get_mid_price, OrderBook.get_spread, h]
  · intro h
    refine ⟨?_, ?_, ?_, rfl⟩ <;>
      simp [OrderBook.get_best_ask, OrderBook.get_best_bid, OrderBook.get_mid_price,
        OrderBook.get_spread, h]

/-- C6 witness: the amended statement applied to the concrete
ask-only book. -/
theorem empty_side_queries_C6_witness :
    bookAskOnly.get_best_bid = none ∧ bookAskOnly.get_mid_price = 0 ∧
    bookAskOnly.get_spread = 0 ∧
    bookAskOnly.calculate_vwap Side.BUY 1 = calculate_vwap_simd bookAskOnly.asks 1 :=
  (empty_side_queries_C6 bookAskOnly 1).1 (by decide)

/-! ## C7 — VWAP: the vectorized sweep equals the scalar best-first sweep -/

theorem sumQ_nonneg {ls : List PriceLevel} (h : ∀ l ∈ ls, 0 ≤ l.quantity) : 0 ≤ sumQ ls := by
  induction ls with
  | nil => simp [sumQ]
  | cons a ls ih =>
      have ha := h a (by simp)
      have := ih (fun l hl => h l (by simp [hl]))
      simp only [sumQ, List.map_cons, List.sum_cons]
      have : (0:ℚ) ≤ (ls.map fun l => l.quantity).sum := this
      linarith

theorem sumQ_zero_all {ls : List PriceLevel} (h : ∀ l ∈ ls, 0 ≤ l.quantity)
    (hz : sumQ ls ≤ 0) : ∀ l ∈ ls, l.quantity = 0 := by
  induction ls with
  | nil => simp
  | cons a ls ih =>
      have ha := h a (by simp)
      have hrest : ∀ l ∈ ls, 0 ≤ l.quantity := fun l hl => h l (by simp [hl])
      have hs := sumQ_nonneg hrest
      simp only [sumQ, List.map_cons, List.sum_cons] at hz
      have haz : a.quantity = 0 := by
        have : (0:ℚ) ≤ (ls.map fun l => l.quantity).sum := hs
        linarith
      intro l hl
      rcases List.mem_cons.mp hl with rfl | hl
      · exact haz
      · exact ih hrest (by unfold sumQ; linarith [hs]) l hl

theorem sumPQ_of_all_zero {ls : List PriceLevel} (h : ∀ l ∈ ls, l.quantity = 0) :
    sumPQ ls = 0 := by
  induction ls with
  | nil => simp [sumPQ]
  | cons a ls ih =>
      have := h a (by simp)
      simp only [sumPQ, List.map_cons, List.sum_cons] at ih ⊢
      rw [this, ih (fun l hl => h l (by simp [hl]))]
      ring

theorem sumQ_of_all_zero {ls : List PriceLevel} (h : ∀ l ∈ ls, l.quantity = 0) :
    sumQ ls = 0 := by
  induction ls with
  | nil => simp [sumQ]
  | cons a ls ih =>
      have := h a (by simp)
      simp only [sumQ, List.map_cons, List.sum_cons] at ih ⊢
      rw [this, ih (fun l hl => h l (by simp [hl]))]
      ring

/-- Once the target is reached, the scalar loop is the identity. -/
theorem vwapScalarLoop_done {ls : List PriceLevel} {target tv tq : ℚ}
    (h : ¬ tq < target) : vwapScalarLoop ls target tv tq = (tv, tq) := by
  cases ls with
  | nil => rfl
  | cons a ls => simp [vwapScalarLoop, h]

/-- A prefix whose whole quantity fits under the target is consumed in
full by the scalar loop. -/
theorem vwapScalarLoop_append (l1 : List PriceLevel) :
    ∀ (l2 : List PriceLevel) (target tv tq : ℚ),
      (∀ l ∈ l1, 0 ≤ l.quantity) → tq + sumQ l1 ≤ target →
      vwapScalarLoop (l1 ++ l2) target tv tq
        = vwapScalarLoop l2 target (tv + sumPQ l1) (tq + sumQ l1) := by
  induction l1 with
  | nil => intro l2 target tv tq _ _; simp [sumQ, sumPQ]
  | cons a l1 ih =>
      intro l2 target tv tq hq hle
      have haq : 0 ≤ a.quantity := hq a (by simp)
      have hq1 : ∀ l ∈ l1, 0 ≤ l.quantity := fun l hl => hq l (by simp [hl])
      have hs1 : 0 ≤ sumQ l1 := sumQ_nonneg hq1
      have hsum : sumQ (a :: l1) = a.quantity + sumQ l1 := by simp [sumQ]
      by_cases hlt : tq < target
      · have hfit : a.quantity ≤ target - tq := by rw [hsum] at hle; linarith
        have hfill : min (target - tq) a.quantity = a.quantity :=
          min_eq_right hfit
        simp only [List.cons_append, vwapScalarLoop, if_pos hlt, hfill, List.append_eq]
        rw [ih l2 target (tv + a.price * a.quantity) (tq + a.quantity) hq1
          (by rw [hsum] at hle; linarith)]
        have e1 : tv + a.price * a.quantity + sumPQ l1 = tv + sumPQ (a :: l1) := by
          simp [sumPQ]; ring
        have e2 : tq + a.quantity + sumQ l1 = tq + sumQ (a :: l1) := by
          simp [sumQ]; ring
        rw [e1, e2]
      · have htq : target ≤ tq := not_lt.mp hlt
        have hz : sumQ (a :: l1) ≤ 0 := by linarith
        have hall : ∀ l ∈ a :: l1, l.quantity = 0 := sumQ_zero_all hq hz
        rw [sumPQ_of_all_zero hall, sumQ_of_all_zero hall]
        simp only [List.cons_append, vwapScalarLoop, if_neg hlt, add_zero]
        exact (vwapScalarLoop_done hlt).symm

/-- The vectorized loop of `calculate_vwap_simd` computes exactly what
the scalar best-first sweep computes, for nonnegative level quantities. -/
theorem vwapBatchLoop_eq_scalar : ∀ (ls : List PriceLevel) (target tv tq : ℚ),
    (∀ l ∈ ls, 0 ≤ l.quantity) →
    vwapBatchLoop ls target tv tq = vwapScalarLoop ls target tv tq := by
  intro ls target tv tq
  induction ls, target, tv, tq using vwapBatchLoop.induct with
  | case1 a b c d rest target tv tq hlt batch hfit ih =>
      intro hq
      have hq4 : ∀ l ∈ [a, b, c, d], 0 ≤ l.quantity := by
        intro l hl
        apply hq
        simp only [List.mem_cons, List.not_mem_nil, or_false] at hl
        simp only [List.mem_cons]
        tauto
      have hsum : sumQ [a, b, c, d] = a.quantity + b.quantity + c.quantity + d.quantity := by
        simp [sumQ]; ring
      have hfit' : tq + (a.quantity + b.quantity + c.quantity + d.quantity) ≤ target := hfit
      have happ := vwapScalarLoop_append [a, b, c, d] rest target tv tq hq4
        (by rw [hsum]; linarith)
      have hrest : ∀ l ∈ rest, 0 ≤ l.quantity := by
        intro l hl; apply hq; simp [hl]
      simp only [vwapBatchLoop, if_pos hlt, if_pos hfit']
      rw [ih hrest]
      have : ([a, b, c, d] : List PriceLevel) ++ rest = a :: b :: c :: d :: rest := by simp
      rw [this] at happ
      rw [happ]
      have e1 : tv + a.price * a.quantity + b.price * b.quantity + c.price * c.quantity
          + d.price * d.quantity = tv + sumPQ [a, b, c, d] := by
        simp [sumPQ]; ring
      have e2 : tq + (a.quantity + b.quantity + c.quantity + d.quantity)
          = tq + sumQ [a, b, c, d] := by rw [hsum]
      rw [e1, e2]
  | case2 a b c d rest target tv tq hlt batch hfit =>
      intro _
      have hfit' : ¬ tq + (a.quantity + b.quantity + c.quantity + d.quantity) ≤ target := hfit
      simp only [vwapBatchLoop, if_pos hlt, if_neg hfit']
  | case3 a b c d rest target tv tq hlt =>
      intro _
      simp only [vwapBatchLoop, if_neg hlt]
      exact (vwapScalarLoop_done hlt).symm
  | case4 ls target tv tq hshape =>
      intro _
      simp only [vwapBatchLoop]

/-- The scalar sweep fills `min target (total liquidity)` of quantity. -/
theorem vwapScalarLoop_snd : ∀ (ls : List PriceLevel) (target tv tq : ℚ),
    (∀ l ∈ ls, 0 ≤ l.quantity) → tq ≤ target →
    (vwapScalarLoop ls target tv tq).2 = tq + min (target - tq) (sumQ ls) := by
  intro ls
  induction ls with
  | nil =>
      intro target tv tq _ hle
      simp only [vwapScalarLoop, sumQ, List.map_nil, List.sum_nil]
      rw [min_eq_right (by linarith)]
      ring
  | cons a ls ih =>
      intro target tv tq hq hle
      have haq : 0 ≤ a.quantity := hq a (by simp)
      have hq1 : ∀ l ∈ ls, 0 ≤ l.quantity := fun l hl => hq l (by simp [hl])
      have hs1 : 0 ≤ sumQ ls := sumQ_nonneg hq1
      have hsum : sumQ (a :: ls) = a.quantity + sumQ ls := by simp [sumQ]
      by_cases hlt : tq < target
      · simp only [vwapScalarLoop, if_pos hlt]
        by_cases hfit : a.quantity ≤ target - tq
        · rw [min_eq_right hfit]
          rw [ih target (tv + a.price * a.quantity) (tq + a.quantity) hq1 (by linarith)]
          rw [hsum]
          have : target - (tq + a.quantity) = target - tq - a.quantity := by ring
          rw [this]
          rcases le_or_lt (sumQ ls) (target - tq - a.quantity) with h | h
          · rw [min_eq_right h, min_eq_right (by linarith)]
            ring
          · rw [min_eq_left (by linarith), min_eq_left (by linarith)]
            ring
        · rw [min_eq_left (show target - tq ≤ a.quantity by linarith)]
          rw [ih target (tv + a.price * (target - tq)) (tq + (target - tq)) hq1 (by linarith)]
          have h0 : target - (tq + (target - tq)) = 0 := by ring
          rw [h0, min_eq_left hs1]
          rw [min_eq_left (show target - tq ≤ sumQ (a :: ls) by rw [hsum]; linarith)]
          ring
      · have htq : tq = target := le_antisymm hle (not_lt.mp hlt)
        rw [vwapScalarLoop_done hlt]
        rw [htq, sub_self, min_eq_left (by rw [hsum]; linarith)]
        ring

/-- Ordered insertion preserves strict ascending price order. -/
theorem pairwise_insertAsc {x : PriceLevel} {ls : List PriceLevel}
    (h : List.Pairwise (fun a b => a.price < b.price) ls) :
    List.Pairwise (fun a b => a.price < b.price) (insertAsc x ls) := by
  induction ls with
  | nil => simp [insertAsc]
  | cons y ys ih =>
      rcases List.pairwise_cons.mp h with ⟨hy, hys⟩
      simp only [insertAsc]
      split_ifs with h1 h2
      · exact List.pairwise_cons.mpr ⟨by
          intro l hl
          rcases List.mem_cons.mp hl with rfl | hl
          · exact h1
          · exact lt_trans h1 (hy l hl), h⟩
      · exact List.pairwise_cons.mpr ⟨by
          intro l hl
          rw [h2]
          exact hy l hl, hys⟩
      · refine List.pairwise_cons.mpr ⟨?_, ih hys⟩
        intro l hl
        rcases mem_insertAsc hl with rfl | hl
        · push_neg at h1 h2
          exact lt_of_le_of_ne h1 (fun hc => h2 hc.symm)
        · exact hy l hl

/-- Ordered insertion preserves strict descending price order. -/
theorem pairwise_insertDesc {x : PriceLevel} {ls : List PriceLevel}
    (h : List.Pairwise (fun a b => b.price < a.price) ls) :
    List.Pairwise (fun a b => b.price < a.price) (insertDesc x ls) := by
  induction ls with
  | nil => simp [insertDesc]
  | cons y ys ih =>
      rcases List.pairwise_cons.mp h with ⟨hy, hys⟩
      simp only [insertDesc]
      split_ifs with h1 h2
      · exact List.pairwise_cons.mpr ⟨by
          intro l hl
          rcases List.mem_cons.mp hl with rfl | hl
          · exact h1
          · exact lt_trans (hy l hl) h1, h⟩
      · exact List.pairwise_cons.mpr ⟨by
          intro l hl
          rw [h2]
          exact hy l hl, hys⟩
      · refine List.pairwise_cons.mpr ⟨?_, ih hys⟩
        intro l hl
        rcases mem_insertDesc hl with rfl | hl
        · push_neg at h1 h2
          exact lt_of_le_of_ne h1 (fun hc => h2 hc)
        · exact hy l hl

theorem pairwise_foldl_insertAsc :
    ∀ (ls acc : List PriceLevel),
      List.Pairwise (fun a b => a.price < b.price) acc →
      List.Pairwise (fun a b => a.price < b.price)
        (ls.foldl (fun m x => insertAsc x m) acc) := by
  intro ls
  induction ls with
  | nil => intro acc h; exact h
  | cons x xs ih => intro acc h; exact ih (insertAsc x acc) (pairwise_insertAsc h)

theorem pairwise_foldl_insertDesc :
    ∀ (ls acc : List PriceLevel),
      List.Pairwise (fun a b => b.price < a.price) acc →
      List.Pairwise (fun a b => b.price < a.price)
        (ls.foldl (fun m x => insertDesc x m) acc) := by
  intro ls
  induction ls with
  | nil => intro acc h; exact h
  | cons x xs ih => intro acc h; exact ih (insertDesc x acc) (pairwise_insertDesc h)

/-- C7: `calculate_vwap` sweeps the ask ladder for a buy and the bid
ladder for a sell — ladders that `update` keeps in strictly ascending
(asks) resp. descending (bids) price order, i.e. best-first — filling
greedily; for nonnegative stored quantities the vectorized batch path
returns exactly the scalar best-first sweep's volume-weighted average,
and the swept (filled) quantity is `min target (total liquidity)`, a
partial fill when liquidity is insufficient. -/
theorem vwap_simd_eq_sweep_C7 :
    (∀ (b : OrderBook) (target : ℚ),
      (∀ l ∈ b.asks, 0 ≤ l.quantity) → (∀ l ∈ b.bids, 0 ≤ l.quantity) →
      b.calculate_vwap Side.BUY target = vwap_spec b.asks target ∧
      b.calculate_vwap Side.SELL target = vwap_spec b.bids target ∧
      (0 ≤ target →
        (vwapScalarLoop b.asks target 0 0).2 = min target (sumQ b.asks) ∧
        (vwapScalarLoop b.bids target 0 0).2 = min target (sumQ b.bids))) ∧
    (∀ (b : OrderBook) (bids asks : List PriceLevel) (now : ℤ),
      List.Pairwise (fun a b => a.price < b.price) ((OrderBook.update b bids asks now).asks) ∧
      List.Pairwise (fun a b => b.price < a.price) ((OrderBook.update b bids asks now).bids)) := by
  constructor
  · intro b target hasks hbids
    refine ⟨?_, ?_, ?_⟩
    · simp only [OrderBook.calculate_vwap, calculate_vwap_simd, vwap_spec]
      rw [vwapBatchLoop_eq_scalar b.asks target 0 0 hasks]
    · simp only [OrderBook.calculate_vwap, calculate_vwap_simd, vwap_spec]
      rw [vwapBatchLoop_eq_scalar b.bids target 0 0 hbids]
    · intro ht
      constructor
      · rw [vwapScalarLoop_snd b.asks target 0 0 hasks ht]
        simp
      · rw [vwapScalarLoop_snd b.bids target 0 0 hbids ht]
        simp
  · intro b bids asks now
    exact ⟨pairwise_foldl_insertAsc asks [] (by simp),
           pairwise_foldl_insertDesc bids [] (by simp)⟩

/-- C7 witness: the theorem applied to a concrete book and target. -/
theorem vwap_simd_eq_sweep_C7_witness :
    bookTwoAsks.calculate_vwap Side.BUY 3 = vwap_spec bookTwoAsks.asks 3 ∧
    (vwapScalarLoop bookTwoAsks.asks 3 0 0).2 = min 3 (sumQ bookTwoAsks.asks) := by
  have h := vwap_simd_eq_sweep_C7.1 bookTwoAsks 3
    (by intro l hl; fin_cases hl <;> norm_num)
    (by intro l hl; fin_cases hl <;> norm_num)
  exact ⟨h.1, (h.2.2 (by norm_num)).1⟩

/-! ## Lemmas on the best-price scan (`get_best_prices`) -/

/-- One scan step either leaves the bid fields untouched or installs a
strictly improving bid from the venue's record. -/
theorem considerVenue_bid_cases (store : MarketDataStore) (sym : String) (t : InstrumentType)
    (acc : BestPrices × Bool) (e : Exchange) :
    ((considerVenue store sym t acc e).1.best_bid = acc.1.best_bid ∧
     (considerVenue store sym t acc e).1.best_bid_exchange = acc.1.best_bid_exchange ∧
     (considerVenue store sym t acc e).1.best_bid_size = acc.1.best_bid_size) ∨
    (∃ d, store ⟨sym, e, t⟩ = some d ∧ acc.1.best_bid < d.bid_price ∧
     (considerVenue store sym t acc e).1.best_bid = d.bid_price ∧
     (considerVenue store sym t acc e).1.best_bid_exchange = some e ∧
     (considerVenue store sym t acc e).1.best_bid_size = d.bid_size) := by
  cases h : store ⟨sym, e, t⟩ with
  | none => left; simp [considerVenue, h]
  | some d =>
      by_cases hb : acc.1.best_bid < d.bid_price
      · right
        refine ⟨d, rfl, hb, ?_⟩
        simp only [considerVenue, h, if_pos hb]
        split_ifs <;> simp
      · left
        simp only [considerVenue, h, if_neg hb]
        split_ifs <;> simp

/-- One scan step either leaves the ask fields untouched or installs a
strictly improving ask from the venue's record. -/
theorem considerVenue_ask_cases (store : MarketDataStore) (sym : String) (t : InstrumentType)
    (acc : BestPrices × Bool) (e : Exchange) :
    ((considerVenue store sym t acc e).1.best_ask = acc.1.best_ask ∧
     (considerVenue store sym t acc e).1.best_ask_exchange = acc.1.best_ask_exchange ∧
     (considerVenue store sym t acc e).1.best_ask_size = acc.1.best_ask_size) ∨
    (∃ d, store ⟨sym, e, t⟩ = some d ∧ d.ask_price < acc.1.best_ask ∧
     (considerVenue store sym t acc e).1.best_ask = d.ask_price ∧
     (considerVenue store sym t acc e).1.best_ask_exchange = some e ∧
     (considerVenue store sym t acc e).1.best_ask_size = d.ask_size) := by
  cases h : store ⟨sym, e, t⟩ with
  | none => left; simp [considerVenue, h]
  | some d =>
      by_cases ha : d.ask_price < acc.1.best_ask
      · right
        refine ⟨d, rfl, ha, ?_⟩
        simp only [considerVenue, h]
        split_ifs with hb hsk hsk <;> simp_all
      · left
        simp only [considerVenue, h]
        split_ifs with hb hsk hsk <;> simp_all

/-- The running best bid never decreases along the scan. -/
theorem considerVenue_bid_mono (store : MarketDataStore) (sym : String) (t : InstrumentType)
    (acc : BestPrices × Bool) (e : Exchange) :
    acc.1.best_bid ≤ (considerVenue store sym t acc e).1.best_bid := by
  rcases considerVenue_bid_cases store sym t acc e with ⟨h, -, -⟩ | ⟨d, -, hlt, h, -, -⟩
  · rw [h]
  · rw [h]; exact le_of_lt hlt

/-- The running best ask never increases along the scan. -/
theorem considerVenue_ask_mono (store : MarketDataStore) (sym : String) (t : InstrumentType)
    (acc : BestPrices × Bool) (e : Exchange) :
    (considerVenue store sym t acc e).1.best_ask ≤ acc.1.best_ask := by
  rcases considerVenue_ask_cases store sym t acc e with ⟨h, -, -⟩ | ⟨d, -, hlt, h, -, -⟩
  · rw [h]
  · rw [h]; exact le_of_lt hlt

/-- After a venue's step, the running best bid dominates that venue's bid. -/
theorem considerVenue_bid_bound {store : MarketDataStore} {sym : String} {t : InstrumentType}
    {d : MarketData} (acc : BestPrices × Bool) {e : Exchange}
    (h : store ⟨sym, e, t⟩ = some d) :
    d.bid_price ≤ (considerVenue store sym t acc e).1.best_bid := by
  by_cases hb : acc.1.best_bid < d.bid_price
  · simp only [considerVenue, h, if_pos hb]
    split_ifs <;> simp
  · have : d.bid_price ≤ acc.1.best_bid := not_lt.mp hb
    simp only [considerVenue, h, if_neg hb]
    split_ifs <;> simpa

/-- After a venue's step, the running best ask is at most that venue's ask. -/
theorem considerVenue_ask_bound {store : MarketDataStore} {sym : String} {t : InstrumentType}
    {d : MarketData} (acc : BestPrices × Bool) {e : Exchange}
    (h : store ⟨sym, e, t⟩ = some d) :
    (considerVenue store sym t acc e).1.best_ask ≤ d.ask_price := by
  simp only [considerVenue, h]
  split_ifs <;> simp_all [not_lt]

/-- A successful lookup always sets the found flag. -/
theorem considerVenue_found {store : MarketDataStore} {sym : String} {t : InstrumentType}
    {d : MarketData} (acc : BestPrices × Bool) {e : Exchange}
    (h : store ⟨sym, e, t⟩ = some d) :
    (considerVenue store sym t acc e).2 = true := by
  simp only [considerVenue, h]

/-- The found flag never resets. -/
theorem considerVenue_found_mono {store : MarketDataStore} {sym : String} {t : InstrumentType}
    (acc : BestPrices × Bool) (e : Exchange) (h : acc.2 = true) :
    (considerVenue store sym t acc e).2 = true := by
  cases hs : store ⟨sym, e, t⟩ with
  | none => simpa [considerVenue, hs]
  | some d => simp [considerVenue, hs]

/-- `get_best_prices` is the unrolled three-step scan. -/
theorem get_best_prices_eq_fold (store : MarketDataStore) (sym : String) (t : InstrumentType) :
    get_best_prices store sym t =
      if (bpFold store sym t).2 then some (bpFold store sym t).1 else none := rfl

/-- A reported result is the final state of the scan. -/
theorem get_best_prices_some {store : MarketDataStore} {sym : String} {t : InstrumentType}
    {bp : BestPrices} (hbp : get_best_prices store sym t = some bp) :
    bp = (bpFold store sym t).1 := by
  rw [get_best_prices_eq_fold] at hbp
  split_ifs at hbp
  exact (Option.some.inj hbp).symm

/-- The reported best bid dominates every venue's bid, and the reported
best ask is at most every venue's ask. -/
theorem get_best_prices_bound {store : MarketDataStore} {sym : String} {t : InstrumentType}
    {bp : BestPrices} (hbp : get_best_prices store sym t = some bp) :
    ∀ (e : Exchange) (d : MarketData), store ⟨sym, e, t⟩ = some d →
      d.bid_price ≤ bp.best_bid ∧ bp.best_ask ≤ d.ask_price := by
  intro e d hd
  rw [get_best_prices_some hbp]
  simp only [bpFold]
  cases e with
  | OKX =>
      exact ⟨le_trans (considerVenue_bid_bound _ hd)
               (le_trans (considerVenue_bid_mono _ _ _ _ _) (considerVenue_bid_mono _ _ _ _ _)),
             le_trans (considerVenue_ask_mono _ _ _ _ _)
               (le_trans (considerVenue_ask_mono _ _ _ _ _) (considerVenue_ask_bound _ hd))⟩
  | BINANCE =>
      exact ⟨le_trans (considerVenue_bid_bound _ hd) (considerVenue_bid_mono _ _ _ _ _),
             le_trans (considerVenue_ask_mono _ _ _ _ _) (considerVenue_ask_bound _ hd)⟩
  | BYBIT =>
      exact ⟨considerVenue_bid_bound _ hd, considerVenue_ask_bound _ hd⟩

/-- The reported best-bid venue really quotes the reported price and size. -/
theorem get_best_prices_bid_attain {store : MarketDataStore} {sym : String} {t : InstrumentType}
    {bp : BestPrices} (hbp : get_best_prices store sym t = some bp) :
    ∀ e : Exchange, bp.best_bid_exchange = some e →
      ∃ d, store ⟨sym, e, t⟩ = some d ∧ bp.best_bid = d.bid_price ∧
        bp.best_bid_size = d.bid_size := by
  intro e he
  have hb := get_best_prices_some hbp
  rw [hb] at he ⊢
  simp only [bpFold] at he ⊢
  set s1 := considerVenue store sym t (bpInit, false) Exchange.OKX with hs1
  set s2 := considerVenue store sym t s1 Exchange.BINANCE with hs2
  rcases considerVenue_bid_cases store sym t s2 Exchange.BYBIT with
    ⟨h1, h2, h3⟩ | ⟨d, hd, -, h1, h2, h3⟩
  · rw [h2] at he
    rw [h1, h3]
    rcases considerVenue_bid_cases store sym t s1 Exchange.BINANCE with
      ⟨g1, g2, g3⟩ | ⟨d, hd, -, g1, g2, g3⟩
    · rw [g2] at he
      rw [g1, g3]
      rcases considerVenue_bid_cases store sym t (bpInit, false) Exchange.OKX with
        ⟨f1, f2, f3⟩ | ⟨d, hd, -, f1, f2, f3⟩
      · rw [f2] at he
        exact absurd he (by simp [bpInit])
      · rw [f2] at he
        cases Option.some.inj he
        exact ⟨d, hd, f1, f3⟩
    · rw [g2] at he
      cases Option.some.inj he
      exact ⟨d, hd, g1, g3⟩
  · rw [h2] at he
    cases Option.some.inj he
    exact ⟨d, hd, h1, h3⟩

/-- The reported best-ask venue really quotes the reported price and size. -/
theorem get_best_prices_ask_attain {store : MarketDataStore} {sym : String} {t : InstrumentType}
    {bp : BestPrices} (hbp : get_best_prices store sym t = some bp) :
    ∀ e : Exchange, bp.best_ask_exchange = some e →
      ∃ d, store ⟨sym, e, t⟩ = some d ∧ bp.best_ask = d.ask_price ∧
        bp.best_ask_size = d.ask_size := by
  intro e he
  have hb := get_best_prices_some hbp
  rw [hb] at he ⊢
  simp only [bpFold] at he ⊢
  set s1 := considerVenue store sym t (bpInit, false) Exchange.OKX with hs1
  set s2 := considerVenue store sym t s1 Exchange.BINANCE with hs2
  rcases considerVenue_ask_cases store sym t s2 Exchange.BYBIT with
    ⟨h1, h2, h3⟩ | ⟨d, hd, -, h1, h2, h3⟩
  · rw [h2] at he
    rw [h1, h3]
    rcases considerVenue_ask_cases store sym t s1 Exchange.BINANCE with
      ⟨g1, g2, g3⟩ | ⟨d, hd, -, g1, g2, g3⟩
    · rw [g2] at he
      rw [g1, g3]
      rcases considerVenue_ask_cases store sym t (bpInit, false) Exchange.OKX with
        ⟨f1, f2, f3⟩ | ⟨d, hd, -, f1, f2, f3⟩
      · rw [f2] at he
        exact absurd he (by simp [bpInit])
      · rw [f2] at he
        cases Option.some.inj he
        exact ⟨d, hd, f1, f3⟩
    · rw [g2] at he
      cases Option.some.inj he
      exact ⟨d, hd, g1, g3⟩
  · rw [h2] at he
    cases Option.some.inj he
    exact ⟨d, hd, h1, h3⟩

/-- Venues strictly earlier in the fixed scan order than the reported
best-bid venue quote strictly smaller bids: among equal best bids the
first venue in scan order wins, regardless of size. -/
theorem get_best_prices_bid_earliest {store : MarketDataStore} {sym : String}
    {t : InstrumentType} {bp : BestPrices} (hbp : get_best_prices store sym t = some bp) :
    ∀ (e' e : Exchange) (d : MarketData), bp.best_bid_exchange = some e' →
      venueIdx e < venueIdx e' → store ⟨sym, e, t⟩ = some d →
      d.bid_price < bp.best_bid := by
  intro e' e d he' hidx hd
  have hb := get_best_prices_some hbp
  rw [hb] at he' ⊢
  simp only [bpFold] at he' ⊢
  set s1 := considerVenue store sym t (bpInit, false) Exchange.OKX with hs1
  set s2 := considerVenue store sym t s1 Exchange.BINANCE with hs2
  rcases considerVenue_bid_cases store sym t s2 Exchange.BYBIT with
    ⟨h1, h2, -⟩ | ⟨d3, hd3, hlt3, h1, h2, -⟩
  · rw [h2] at he'
    rw [h1]
    rcases considerVenue_bid_cases store sym t s1 Exchange.BINANCE with
      ⟨g1, g2, -⟩ | ⟨d2, hd2, hlt2, g1, g2, -⟩
    · rw [g2] at he'
      rw [g1]
      rcases considerVenue_bid_cases store sym t (bpInit, false) Exchange.OKX with
        ⟨f1, f2, -⟩ | ⟨d1, hd1, hlt1, f1, f2, -⟩
      · rw [f2] at he'
        exact absurd he' (by simp [bpInit])
      · rw [f2] at he'
        cases Option.some.inj he'
        cases e <;> simp [venueIdx] at hidx
    · rw [g2] at he'
      cases Option.some.inj he'
      rw [g1]
      cases e with
      | OKX =>
          have hbound : d.bid_price ≤ s1.1.best_bid := considerVenue_bid_bound _ hd
          exact lt_of_le_of_lt hbound hlt2
      | BINANCE => simp [venueIdx] at hidx
      | BYBIT => simp [venueIdx] at hidx
  · rw [h2] at he'
    cases Option.some.inj he'
    rw [h1]
    cases e with
    | OKX =>
        have hbound : d.bid_price ≤ s1.1.best_bid := considerVenue_bid_bound _ hd
        have hmono : s1.1.best_bid ≤ s2.1.best_bid := considerVenue_bid_mono _ _ _ _ _
        exact lt_of_le_of_lt (le_trans hbound hmono) hlt3
    | BINANCE =>
        have hbound : d.bid_price ≤ s2.1.best_bid := considerVenue_bid_bound _ hd
        exact lt_of_le_of_lt hbound hlt3
    | BYBIT => simp [venueIdx] at hidx

/-- Venues strictly earlier in the fixed scan order than the reported
best-ask venue quote strictly larger asks. -/
theorem get_best_prices_ask_earliest {store : MarketDataStore} {sym : String}
    {t : InstrumentType} {bp : BestPrices} (hbp : get_best_prices store sym t = some bp) :
    ∀ (e' e : Exchange) (d : MarketData), bp.best_ask_exchange = some e' →
      venueIdx e < venueIdx e' → store ⟨sym, e, t⟩ = some d →
      bp.best_ask < d.ask_price := by
  intro e' e d he' hidx hd
  have hb := get_best_prices_some hbp
  rw [hb] at he' ⊢
  simp only [bpFold] at he' ⊢
  set s1 := considerVenue store sym t (bpInit, false) Exchange.OKX with hs1
  set s2 := considerVenue store sym t s1 Exchange.BINANCE with hs2
  rcases considerVenue_ask_cases store sym t s2 Exchange.BYBIT with
    ⟨h1, h2, -⟩ | ⟨d3, hd3, hlt3, h1, h2, -⟩
  · rw [h2] at he'
    rw [h1]
    rcases considerVenue_ask_cases store sym t s1 Exchange.BINANCE with
      ⟨g1, g2, -⟩ | ⟨d2, hd2, hlt2, g1, g2, -⟩
    · rw [g2] at he'
      rw [g1]
      rcases considerVenue_ask_cases store sym t (bpInit, false) Exchange.OKX with
        ⟨f1, f2, -⟩ | ⟨d1, hd1, hlt1, f1, f2, -⟩
      · rw [f2] at he'
        exact absurd he' (by simp [bpInit])
      · rw [f2] at he'
        cases Option.some.inj he'
        cases e <;> simp [venueIdx] at hidx
    · rw [g2] at he'
      cases Option.some.inj he'
      rw [g1]
      cases e with
      | OKX =>
          have hbound : s1.1.best_ask ≤ d.ask_price := considerVenue_ask_bound _ hd
          exact lt_of_lt_of_le hlt2 hbound
      | BINANCE => simp [venueIdx] at hidx
      | BYBIT => simp [venueIdx] at hidx
  · rw [h2] at he'
    cases Option.some.inj he'
    rw [h1]
    cases e with
    | OKX =>
        have hbound : s1.1.best_ask ≤ d.ask_price := considerVenue_ask_bound _ hd
        have hmono : s2.1.best_ask ≤ s1.1.best_ask := considerVenue_ask_mono _ _ _ _ _
        exact lt_of_lt_of_le hlt3 (le_trans hmono hbound)
    | BINANCE =>
        have hbound : s2.1.best_ask ≤ d.ask_price := considerVenue_ask_bound _ hd
        exact lt_of_lt_of_le hlt3 hbound
    | BYBIT => simp [venueIdx] at hidx

/-! ## C5 — cross-venue best-price aggregation and its tie-break -/

/-- C5 counterexample: OKX and BINANCE quote the identical best bid 100
(and ask 101), OKX with size 1 and BINANCE with size 5; the aggregation
reports OKX — the venue earlier in the fixed scan order — not the venue
with the larger size, so size is not the first tie-break. -/
theorem best_prices_tie_C5_cex :
    get_best_prices storeTie "BTC-USDT" InstrumentType.SPOT =
      some { best_bid := 100, best_ask := 101, best_bid_exchange := some Exchange.OKX,
             best_ask_exchange := some Exchange.OKX, best_bid_size := 1, best_ask_size := 1 } ∧
    storeTie ⟨"BTC-USDT", Exchange.BINANCE, InstrumentType.SPOT⟩ = some mdTieBin ∧
    mdTieBin.bid_price = 100 ∧ mdTieBin.ask_price = 101 ∧
    mdTieBin.bid_size = 5 ∧ mdTieBin.ask_size = 5 := by
  refine ⟨by with_unfolding_all decide, by with_unfolding_all decide,
    by with_unfolding_all decide, by with_unfolding_all decide,
    by with_unfolding_all decide, by with_unfolding_all decide⟩

/-- C5 amended: `get_best_prices` returns the highest bid and the lowest
ask with the quoting venue and that venue's size; venues earlier in the
fixed scan order (OKX, BINANCE, BYBIT) than the reported venue quote
strictly worse prices, so among venues tied at the best price the FIRST
in the fixed order wins — size is never consulted in the tie-break. -/
theorem best_prices_aggregation_C5 :
    ∀ (store : MarketDataStore) (sym : String) (t : InstrumentType) (bp : BestPrices),
      get_best_prices store sym t = some bp →
      (∀ (e : Exchange) (d : MarketData), store ⟨sym, e, t⟩ = some d →
        d.bid_price ≤ bp.best_bid ∧ bp.best_ask ≤ d.ask_price) ∧
      (∀ e : Exchange, bp.best_bid_exchange = some e →
        ∃ d, store ⟨sym, e, t⟩ = some d ∧ bp.best_bid = d.bid_price ∧
          bp.best_bid_size = d.bid_size) ∧
      (∀ e : Exchange, bp.best_ask_exchange = some e →
        ∃ d, store ⟨sym, e, t⟩ = some d ∧ bp.best_ask = d.ask_price ∧
          bp.best_ask_size = d.ask_size) ∧
      (∀ (e' e : Exchange) (d : MarketData), bp.best_bid_exchange = some e' →
        store ⟨sym, e, t⟩ = some d → d.bid_price = bp.best_bid →
        venueIdx e' ≤ venueIdx e) ∧
      (∀ (e' e : Exchange) (d : MarketData), bp.best_ask_exchange = some e' →
        store ⟨sym, e, t⟩ = some d → d.ask_price = bp.best_ask →
        venueIdx e' ≤ venueIdx e) := by
  intro store sym t bp hbp
  refine ⟨get_best_prices_bound hbp, get_best_prices_bid_attain hbp,
    get_best_prices_ask_attain hbp, ?_, ?_⟩
  · intro e' e d he' hd hp
    by_contra hc
    push_neg at hc
    exact absurd hp (ne_of_lt (get_best_prices_bid_earliest hbp e' e d he' hc hd))
  · intro e' e d he' hd hp
    by_contra hc
    push_neg at hc
    exact absurd hp (ne_of_gt (get_best_prices_ask_earliest hbp e' e d he' hc hd))

/-- C5 witness: the theorem applied to the concrete tie store — it
forces the reported venue (OKX) to be no later in scan order than the
equally-priced BINANCE. -/
theorem best_prices_aggregation_C5_witness :
    mdTieBin.bid_price ≤ 100 ∧ venueIdx Exchange.OKX ≤ venueIdx Exchange.BINANCE := by
  have h := best_prices_aggregation_C5 storeTie "BTC-USDT" InstrumentType.SPOT
    { best_bid := 100, best_ask := 101, best_bid_exchange := some Exchange.OKX,
      best_ask_exchange := some Exchange.OKX, best_bid_size := 1, best_ask_size := 1 }
    (by with_unfolding_all decide)
  constructor
  · exact (h.1 Exchange.BINANCE mdTieBin (by with_unfolding_all decide)).1
  · exact h.2.2.2.1 Exchange.OKX Exchange.BINANCE mdTieBin rfl
      (by with_unfolding_all decide) (by with_unfolding_all decide)

/-! ## C1 — the spot cross-venue detection rule -/

/-- C1 counterexample: with taker fee 4 bps and
`min_profit_threshold = 2` bps, the boundary store has best bid
10010@BINANCE against best ask 10000@OKX, different venues, and
`net_bps = (10010-10000)/10000 x 10^4 - 2 x 4 = 2`, which meets the
threshold (`net_bps >= min_profit_bps`) — yet no opportunity is
emitted, because the code requires a STRICT `net_bps > threshold`. -/
theorem detect_spot_boundary_C1_cex :
    detect_spot_symbol storeEdge cfgEdge 0 "BTC-USDT" = none ∧
    get_best_prices storeEdge "BTC-USDT" InstrumentType.SPOT =
      some { best_bid := 10010, best_ask := 10000,
             best_bid_exchange := some Exchange.BINANCE,
             best_ask_exchange := some Exchange.OKX,
             best_bid_size := 1, best_ask_size := 1 } ∧
    (10010 - 10000 : ℚ) / 10000 * 10000 - TAKER_FEE_BPS * 2 = cfgEdge.min_profit_threshold := by
  have hbp : get_best_prices storeEdge "BTC-USDT" InstrumentType.SPOT =
      some { best_bid := 10010, best_ask := 10000,
             best_bid_exchange := some Exchange.BINANCE,
             best_ask_exchange := some Exchange.OKX,
             best_bid_size := 1, best_ask_size := 1 } := by decide
  refine ⟨?_, hbp, by norm_num [TAKER_FEE_BPS, cfgEdge]⟩
  simp only [detect_spot_symbol, hbp]
  split_ifs with h1 h2
  · exfalso
    norm_num [TAKER_FEE_BPS, cfgEdge] at h2
  · rfl
  · rfl

/-- C1 amended: one detection pass over a symbol emits a spot
opportunity exactly when the best-bid venue differs from the best-ask
venue and `net_bps = (best_bid - best_ask)/best_ask x 10^4 -
2 x taker_fee_bps` STRICTLY exceeds `min_profit_threshold`; the emitted
opportunity has exactly the two legs — buy at the best-ask venue at its
ask price and sell at the best-bid venue at its bid price, each with
quantity `min(best_ask.size, best_bid.size)`. -/
theorem detect_spot_rule_C1 :
    ∀ (store : MarketDataStore) (cfg : DetectorConfig) (now : ℤ) (sym : String)
      (bp : BestPrices) (bidEx askEx : Exchange) (bd sd : MarketData),
      get_best_prices store sym InstrumentType.SPOT = some bp →
      bp.best_bid_exchange = some bidEx →
      bp.best_ask_exchange = some askEx →
      store ⟨sym, askEx, InstrumentType.SPOT⟩ = some bd →
      store ⟨sym, bidEx, InstrumentType.SPOT⟩ = some sd →
      ((detect_spot_symbol store cfg now sym).isSome ↔
        (bidEx ≠ askEx ∧ cfg.min_profit_threshold <
          (bp.best_bid - bp.best_ask) / bp.best_ask * 10000 - TAKER_FEE_BPS * 2)) ∧
      (∀ opp, detect_spot_symbol store cfg now sym = some opp →
        opp.legs =
          [ { symbol := sym, exchange := askEx, side := Side.BUY, price := bp.best_ask,
              quantity := min bp.best_ask_size bp.best_bid_size,
              type := InstrumentType.SPOT, is_synthetic := false },
            { symbol := sym, exchange := bidEx, side := Side.SELL, price := bp.best_bid,
              quantity := min bp.best_ask_size bp.best_bid_size,
              type := InstrumentType.SPOT, is_synthetic := false } ]) := by
  intro store cfg now sym bp bidEx askEx bd sd hbp hbid hask hbd hsd
  obtain ⟨bd', hbd', hba, hbs⟩ := get_best_prices_ask_attain hbp askEx hask
  rw [hbd] at hbd'
  cases Option.some.inj hbd'
  obtain ⟨sd', hsd', hsa, hss⟩ := get_best_prices_bid_attain hbp bidEx hbid
  rw [hsd] at hsd'
  cases Option.some.inj hsd'
  have hunfold : detect_spot_symbol store cfg now sym =
      (if bidEx ≠ askEx then
        (if cfg.min_profit_threshold <
            (bp.best_bid - bp.best_ask) / bp.best_ask * 10000 - TAKER_FEE_BPS * 2 then
          some (create_spot_opportunity sym askEx bidEx bd sd cfg now)
        else none)
      else none) := by
    simp only [detect_spot_symbol, hbp, hbid, hask, hbd, hsd]
  constructor
  · rw [hunfold]
    constructor
    · intro hsome
      by_cases hne : bidEx ≠ askEx
      · rw [if_pos hne] at hsome
        by_cases hth : cfg.min_profit_threshold <
            (bp.best_bid - bp.best_ask) / bp.best_ask * 10000 - TAKER_FEE_BPS * 2
        · exact ⟨hne, hth⟩
        · rw [if_neg hth] at hsome
          simp at hsome
      · rw [if_neg hne] at hsome
        simp at hsome
    · rintro ⟨hne, hth⟩
      rw [if_pos hne, if_pos hth]
      rfl
  · intro opp hopp
    rw [hunfold] at hopp
    split_ifs at hopp
    cases Option.some.inj hopp
    simp only [create_spot_opportunity]
    rw [hba, hbs, hsa, hss]

/-- C1 witness: at the boundary store with the threshold lowered to
1 bps the strict inequality holds, and the amended rule forces an
emission. -/
theorem detect_spot_rule_C1_witness :
    (detect_spot_symbol storeEdge cfgBelow 0 "BTC-USDT").isSome := by
  have h := detect_spot_rule_C1 storeEdge cfgBelow 0 "BTC-USDT"
    { best_bid := 10010, best_ask := 10000,
      best_bid_exchange := some Exchange.BINANCE,
      best_ask_exchange := some Exchange.OKX,
      best_bid_size := 1, best_ask_size := 1 }
    Exchange.BINANCE Exchange.OKX mdEdgeOkx mdEdgeBin
    (by decide) rfl rfl (by decide) (by decide)
  exact h.1.mpr ⟨by decide, by norm_num [TAKER_FEE_BPS, cfgBelow]⟩

/-! ## C3 — the risk gate's checks -/

/-- C3 counterexample: the opportunity `oppVenueHeavy` projects 799100
USD of OKX exposure against a 300000 USD OKX limit — the spec's
six-check gate rejects it (venue exposure), and even the source's own
(never called) `check_exchange_exposure` fails it — yet
`check_opportunity_risk` accepts it: the code performs no per-venue
exposure check at all. -/
theorem risk_gate_venue_C3_cex :
    check_opportunity_risk riskStateVenue oppVenueHeavy = true ∧
    check_opportunity_risk_spec riskStateVenue oppVenueHeavy = false ∧
    check_exchange_exposure riskStateVenue Exchange.OKX (250000 * 1 + 250100 * 1) = false := by
  refine ⟨?_, ?_, ?_⟩
  · simp only [check_opportunity_risk, check_position_limit, calculate_total_exposure,
      calculate_position_exposure, lookupAssoc, riskStateVenue, oppVenueHeavy, posBtcOkx,
      MAX_FUNDING_RATE_EXPOSURE, MIN_LIQUIDITY_SCORE, List.foldl, List.find?, List.all]
    norm_num
  · simp only [check_opportunity_risk_spec, lookupAssoc, calculate_total_exposure,
      calculate_position_exposure, riskStateVenue, oppVenueHeavy, posBtcOkx,
      MAX_FUNDING_RATE_EXPOSURE, MIN_LIQUIDITY_SCORE, List.foldl, List.find?, List.all,
      List.any]
    norm_num
  · simp only [check_exchange_exposure, lookupAssoc, calculate_position_exposure,
      riskStateVenue, posBtcOkx, List.foldl, List.find?]
    norm_num

/-- C3 amended: `check_opportunity_risk` accepts exactly when execution
risk is at most 0.7, funding risk at most `MAX_FUNDING_RATE_EXPOSURE`
(checked unconditionally, perpetual legs or not), liquidity at least
`MIN_LIQUIDITY_SCORE`, every leg passes `check_position_limit` on its
raw (unsigned) quantity, and total exposure plus required capital stays
within the portfolio limit — five checks; per-venue exposure limits are
never consulted (the gate's verdict is invariant under arbitrary
changes to `exchange_limits`). -/
theorem risk_gate_checks_C3 : ∀ (st : RiskState) (opp : ArbitrageOpportunity),
    (check_opportunity_risk st opp = true ↔
      (opp.execution_risk ≤ 7 / 10 ∧
       opp.funding_risk ≤ MAX_FUNDING_RATE_EXPOSURE ∧
       MIN_LIQUIDITY_SCORE ≤ opp.liquidity_score ∧
       (∀ leg ∈ opp.legs, check_position_limit st leg.symbol leg.quantity = true) ∧
       calculate_total_exposure st + opp.required_capital ≤ st.max_portfolio_exposure)) ∧
    (∀ els, check_opportunity_risk { st with exchange_limits := els } opp
      = check_opportunity_risk st opp) := by
  intro st opp
  constructor
  · constructor
    · intro h
      unfold check_opportunity_risk at h
      by_cases h1 : 7 / 10 < opp.execution_risk
      · rw [if_pos h1] at h; exact absurd h (by simp)
      rw [if_neg h1] at h
      by_cases h2 : MAX_FUNDING_RATE_EXPOSURE < opp.funding_risk
      · rw [if_pos h2] at h; exact absurd h (by simp)
      rw [if_neg h2] at h
      by_cases h3 : opp.liquidity_score < MIN_LIQUIDITY_SCORE
      · rw [if_pos h3] at h; exact absurd h (by simp)
      rw [if_neg h3] at h
      by_cases h4 : (opp.legs.all fun leg => check_position_limit st leg.symbol leg.quantity)
          = true
      · rw [if_neg (not_not_intro h4)] at h
        by_cases h5 : st.max_portfolio_exposure <
            calculate_total_exposure st + opp.required_capital
        · rw [if_pos h5] at h; exact absurd h (by simp)
        · exact ⟨not_lt.mp h1, not_lt.mp h2, not_lt.mp h3,
            fun leg hl => List.all_eq_true.mp h4 leg hl, not_lt.mp h5⟩
      · rw [if_pos h4] at h; exact absurd h (by simp)
    · rintro ⟨c1, c2, c3, c4, c5⟩
      unfold check_opportunity_risk
      rw [if_neg (not_lt.mpr c1), if_neg (not_lt.mpr c2), if_neg (not_lt.mpr c3),
          if_neg (not_not_intro (List.all_eq_true.mpr c4)), if_neg (not_lt.mpr c5)]
  · intro els
    rfl

/-- C3 witness: the amended statement applied to the concrete scenario
state — emptying the venue limits does not change the verdict. -/
theorem risk_gate_checks_C3_witness :
    check_opportunity_risk { riskStateVenue with exchange_limits := [] } oppVenueHeavy
      = check_opportunity_risk riskStateVenue oppVenueHeavy :=
  (risk_gate_checks_C3 riskStateVenue oppVenueHeavy).2 []

/-! ## C4 — emitted opportunities and the profit threshold -/

/-- The synthetic pricer records exactly `arbSyn` for the scenario
store at the (OKX, OKX) combination. -/
theorem find_candidate_storeSyn :
    find_arbitrage_candidate storeSyn 2 "BTC-USDT" Exchange.OKX Exchange.OKX = some arbSyn := by
  have hlookSpot : storeSyn ⟨"BTC-USDT", Exchange.OKX, InstrumentType.SPOT⟩ = some mdSynSpot :=
    by decide
  have hlookPerp : storeSyn ⟨"BTC-USDT", Exchange.OKX, InstrumentType.PERPETUAL⟩
      = some mdSynPerp := by decide
  have hbpPerp : get_best_prices storeSyn "BTC-USDT" InstrumentType.PERPETUAL =
      some { best_bid := 10005, best_ask := 10005,
             best_bid_exchange := some Exchange.OKX, best_ask_exchange := some Exchange.OKX,
             best_bid_size := 1, best_ask_size := 1 } := by decide
  have hsynth : calculate_synthetic_price storeSyn "BTC-USDT" = 10005 := by
    simp only [calculate_synthetic_price, hbpPerp, get_funding_rate, hlookPerp]
    norm_num [mdSynPerp]
  have hbasis : calculate_basis storeSyn "BTC-USDT" InstrumentType.PERPETUAL Exchange.OKX
      = 5 := by
    simp only [calculate_basis, hlookSpot, hlookPerp]
    norm_num [mdSynSpot, mdSynPerp, MarketData.mid_price]
  simp only [find_arbitrage_candidate, hlookSpot, hlookPerp, hsynth, hbasis]
  rw [if_pos (by norm_num [mdSynSpot, MarketData.mid_price])]
  simp only [Option.some.injEq, arbSyn, SyntheticArbitrage.mk.injEq]
  norm_num [mdSynSpot, mdSynPerp, MarketData.mid_price, get_funding_rate, hlookPerp]

/-- `arbSyn` is among the pricer's candidates for the scenario store. -/
theorem arbSyn_mem : arbSyn ∈ find_arbitrage_opportunities storeSyn 2 := by
  unfold find_arbitrage_opportunities
  refine List.mem_flatMap.mpr ⟨"BTC-USDT", by decide, ?_⟩
  refine List.mem_flatMap.mpr ⟨Exchange.OKX, by decide, ?_⟩
  exact List.mem_filterMap.mpr ⟨Exchange.OKX, by decide, find_candidate_storeSyn⟩

/-- C4 counterexample: at a 2 bps threshold the detector emits, for the
scenario store, the opportunity `oppSyn` whose `expected_profit` after
fees is −5 USD (≤ 0) and whose profit in bps is −5 — below the
threshold — because the synthetic path thresholds the GROSS
`|mispricing_bps|` and subtracts the 10 bps fee only afterwards. -/
theorem synthetic_emits_nonpositive_C4_cex :
    oppSyn ∈ detect_synthetic_arbitrage storeSyn cfgEdge 0 ∧
    oppSyn.expected_profit ≤ 0 ∧
    oppSyn.profit_percentage * 100 < cfgEdge.min_profit_threshold ∧
    oppSyn.is_executable = true := by
  refine ⟨?_, by norm_num [oppSyn], by norm_num [oppSyn, cfgEdge], by norm_num [oppSyn]⟩
  unfold detect_synthetic_arbitrage
  refine List.mem_map.mpr ⟨arbSyn, ?_, ?_⟩
  · have h2 : cfgEdge.min_profit_threshold = 2 := by norm_num [cfgEdge]
    rw [h2]
    exact arbSyn_mem
  · simp only [oppSyn, arbSyn, ArbitrageOpportunity.mk.injEq, cfgEdge]
    norm_num

/-- C4 amended: emitted spot opportunities do come from a strictly
net-profitable spread, but the synthetic path thresholds the gross
mispricing only: every recorded synthetic candidate merely satisfies
`min_profit_bps < |mispricing_bps|` with
`expected_profit_bps = |mispricing_bps| - 10`, and the detector wraps
every candidate into an opportunity unconditionally (always marked
executable), so an emitted opportunity may carry `expected_profit ≤ 0`
and `profit_bps < min_profit_bps`. -/
theorem emitted_profit_C4 :
    (∀ (store : MarketDataStore) (cfg : DetectorConfig) (now : ℤ) (sym : String)
       (opp : ArbitrageOpportunity),
       detect_spot_symbol store cfg now sym = some opp →
       ∃ bp, get_best_prices store sym InstrumentType.SPOT = some bp ∧
         cfg.min_profit_threshold <
           (bp.best_bid - bp.best_ask) / bp.best_ask * 10000 - TAKER_FEE_BPS * 2) ∧
    (∀ (store : MarketDataStore) (min_profit_bps : ℚ) (arb : SyntheticArbitrage),
       arb ∈ find_arbitrage_opportunities store min_profit_bps →
       min_profit_bps < |arb.mispricing_bps| ∧
       arb.expected_profit_bps = |arb.mispricing_bps| - 10) ∧
    (∀ (store : MarketDataStore) (cfg : DetectorConfig) (now : ℤ)
       (opp : ArbitrageOpportunity),
       opp ∈ detect_synthetic_arbitrage store cfg now →
       ∃ arb ∈ find_arbitrage_opportunities store cfg.min_profit_threshold,
         opp.expected_profit = arb.expected_profit_bps / 10000 * arb.spot_price * arb.max_size ∧
         opp.profit_percentage = arb.expected_profit_bps / 100 ∧
         opp.is_executable = true) := by
  refine ⟨?_, ?_, ?_⟩
  · intro store cfg now sym opp hopp
    unfold detect_spot_symbol at hopp
    split at hopp
    · simp at hopp
    rename_i bp hbp
    split at hopp
    · split_ifs at hopp with hne
      · dsimp only [] at hopp
        split at hopp
        · rename_i hth
          exact ⟨bp, hbp, hth⟩
        · simp at hopp
    · simp at hopp
  · intro store min_profit_bps arb hmem
    unfold find_arbitrage_opportunities at hmem
    rcases List.mem_flatMap.mp hmem with ⟨sym, -, hmem2⟩
    rcases List.mem_flatMap.mp hmem2 with ⟨se, -, hmem3⟩
    rcases List.mem_filterMap.mp hmem3 with ⟨pe, -, hcand⟩
    unfold find_arbitrage_candidate at hcand
    split at hcand
    · dsimp only [] at hcand
      split at hcand
      · rename_i hth
        cases Option.some.inj hcand
        exact ⟨hth, rfl⟩
      · simp at hcand
    · simp at hcand
  · intro store cfg now opp hopp
    unfold detect_synthetic_arbitrage at hopp
    rcases List.mem_map.mp hopp with ⟨arb, harb, rfl⟩
    exact ⟨arb, harb, rfl, rfl, rfl⟩

/-- C4 witness: the amended statement applied to the scenario store —
its concrete candidate indeed exceeds the gross threshold while its
net profit in bps is 10 lower. -/
theorem emitted_profit_C4_witness :
    (2 : ℚ) < |arbSyn.mispricing_bps| ∧
    arbSyn.expected_profit_bps = |arbSyn.mispricing_bps| - 10 :=
  emitted_profit_C4.2.1 storeSyn 2 arbSyn arbSyn_mem

/-! ## C8 — TTL cleanup -/

/-- C8 counterexample: at `now = 100000001` ns the opportunity created
at 0 ns with a 100 ms TTL has `created_at + ttl = 100000000 ns` in the
past, yet the cleanup pass keeps it: `duration_cast` truncates the age
to whole milliseconds (100 ms) and `100 > 100` is false. -/
theorem cleanup_subms_C8_cex :
    cleanup_expired_opportunities [oppStale] 100000001 = [oppStale] ∧
    oppStale.timestamp + (oppStale.ttl_ms : ℤ) * 1000000 < 100000001 := by
  exact ⟨by decide, by decide⟩

/-- C8 amended: the cleanup pass drops exactly the stored opportunities
whose age in whole (truncated) milliseconds strictly exceeds `ttl_ms`:
afterwards every survivor is an original element not yet one full
millisecond past `created_at + ttl`, every opportunity at most `ttl`
old survives, and the copies consumers already received are untouched. -/
theorem cleanup_ttl_C8 : ∀ (st : DetectorState) (now : ℤ),
    (st.cleanup now).delivered = st.delivered ∧
    (∀ opp ∈ (st.cleanup now).current_opportunities,
      opp ∈ st.current_opportunities ∧
      now - opp.timestamp < ((opp.ttl_ms : ℤ) + 1) * 1000000) ∧
    (∀ opp ∈ st.current_opportunities,
      now - opp.timestamp ≤ (opp.ttl_ms : ℤ) * 1000000 →
      opp ∈ (st.cleanup now).current_opportunities) := by
  intro st now
  refine ⟨rfl, ?_, ?_⟩
  · intro opp hopp
    have hm := List.mem_filter.mp hopp
    refine ⟨hm.1, ?_⟩
    have hdec : (now - opp.timestamp).tdiv 1000000 ≤ (opp.ttl_ms : ℤ) :=
      of_decide_eq_true hm.2
    set t := now - opp.timestamp with ht
    rcases le_or_lt 0 t with hpos | hneg
    · have heq : t.tdiv 1000000 = t / 1000000 := Int.tdiv_eq_ediv hpos (by norm_num)
      rw [heq] at hdec
      have hlt : t < (t / 1000000 + 1) * 1000000 :=
        Int.lt_ediv_add_one_mul_self t (by norm_num)
      have hmul : (t / 1000000 + 1) * 1000000 ≤ ((opp.ttl_ms : ℤ) + 1) * 1000000 := by
        apply mul_le_mul_of_nonneg_right _ (by norm_num)
        linarith
      linarith
    · have : (0 : ℤ) ≤ ((opp.ttl_ms : ℤ) + 1) * 1000000 := by positivity
      linarith
  · intro opp hopp hle
    apply List.mem_filter.mpr
    refine ⟨hopp, decide_eq_true ?_⟩
    set t := now - opp.timestamp with ht
    rcases le_or_lt 0 t with hpos | hneg
    · have heq : t.tdiv 1000000 = t / 1000000 := Int.tdiv_eq_ediv hpos (by norm_num)
      rw [heq]
      calc t / 1000000 ≤ (opp.ttl_ms : ℤ) * 1000000 / 1000000 :=
            Int.ediv_le_ediv (by norm_num) hle
        _ = (opp.ttl_ms : ℤ) := Int.mul_ediv_cancel _ (by norm_num)
    · have h1 : t.tdiv 1000000 = -((-t).tdiv 1000000) := by
        rw [← Int.neg_tdiv, neg_neg]
      have h2 : 0 ≤ (-t).tdiv 1000000 :=
        Int.tdiv_nonneg (by linarith) (by norm_num)
      have h3 : t.tdiv 1000000 ≤ 0 := by rw [h1]; linarith
      have h4 : (0 : ℤ) ≤ (opp.ttl_ms : ℤ) := Int.natCast_nonneg _
      linarith

/-- C8 witness: the amended statement applied to a concrete state —
a fresh 100 ms opportunity survives a cleanup at `now = 50 ms`, and the
delivered copies are unchanged. -/
theorem cleanup_ttl_C8_witness :
    oppStale ∈ ((DetectorState.mk [oppStale] [oppStale]).cleanup 50000000).current_opportunities ∧
    ((DetectorState.mk [oppStale] [oppStale]).cleanup 50000000).delivered = [oppStale] := by
  have h := cleanup_ttl_C8 (DetectorState.mk [oppStale] [oppStale]) 50000000
  exact ⟨h.2.2 oppStale (by decide) (by decide), h.1⟩

/-! ## C9 — the ring buffer drops the NEWEST element on overflow -/

/-- A push below capacity succeeds and appends at the write cursor. -/
theorem push_succ {T : Type} {N : ℕ} (s : CircularBuffer T N) (x : T) (k : ℕ)
    (hr : s.read_pos = 0) (hw : s.write_pos = k) (hk : k + 1 < N) :
    (s.push x).1 = true ∧ (s.push x).2.read_pos = 0 ∧ (s.push x).2.write_pos = k + 1 ∧
    (∀ i, i ≠ k → (s.push x).2.buffer i = s.buffer i) ∧ (s.push x).2.buffer k = x := by
  have hmod : (s.write_pos + 1) % N = k + 1 := by
    rw [hw]; exact Nat.mod_eq_of_lt hk
  have hne : ¬ ((s.write_pos + 1) % N = s.read_pos) := by
    rw [hmod, hr]; exact Nat.succ_ne_zero k
  have hpush : s.push x = (true,
      { s with buffer := fun i => if i = s.write_pos then x else s.buffer i,
               write_pos := (s.write_pos + 1) % N }) := by
    unfold CircularBuffer.push
    rw [if_neg hne]
  rw [hpush]
  refine ⟨rfl, hr, hmod, ?_, ?_⟩
  · intro i hi
    show (if i = s.write_pos then x else s.buffer i) = s.buffer i
    rw [if_neg (fun hc => hi (by rw [← hw]; exact hc))]
  · show (if k = s.write_pos then x else s.buffer k) = x
    rw [if_pos hw.symm]

/-- A push into a full buffer (write cursor one slot before the read
cursor) fails and leaves the buffer unchanged: the incoming element is
the one dropped. -/
theorem push_fail {T : Type} {N : ℕ} (s : CircularBuffer T N) (x : T)
    (hr : s.read_pos = 0) (hw : s.write_pos = N - 1) (hN : 0 < N) :
    s.push x = (false, s) := by
  have hmod : (s.write_pos + 1) % N = 0 := by
    rw [hw, Nat.sub_add_cancel hN, Nat.mod_self]
  have hcond : (s.write_pos + 1) % N = s.read_pos := by rw [hmod, hr]
  unfold CircularBuffer.push
  rw [if_pos hcond]

/-- State of the buffer after pushing a production sequence into a
well-formed prefix state: the first `N - 1 - |ys|` new elements are
accepted, the rest dropped. -/
theorem pushAll_state {T : Type} {N : ℕ} (hN : 0 < N) :
    ∀ (xs : List T) (s : CircularBuffer T N) (ys : List T),
      s.read_pos = 0 → s.write_pos = ys.length → ys.length ≤ N - 1 →
      (∀ (i : ℕ) (h : i < ys.length), s.buffer i = ys.get ⟨i, h⟩) →
      (s.pushAll xs).read_pos = 0 ∧
      (s.pushAll xs).write_pos = (ys ++ xs.take (N - 1 - ys.length)).length ∧
      (ys ++ xs.take (N - 1 - ys.length)).length ≤ N - 1 ∧
      (∀ (i : ℕ) (h : i < (ys ++ xs.take (N - 1 - ys.length)).length),
        (s.pushAll xs).buffer i = (ys ++ xs.take (N - 1 - ys.length)).get ⟨i, h⟩) := by
  intro xs
  induction xs with
  | nil =>
      intro s ys hr hw hlen hbuf
      have hnil : ys ++ List.take (N - 1 - ys.length) ([] : List T) = ys := by simp
      simp only [CircularBuffer.pushAll, List.foldl_nil]
      rw [hnil]
      exact ⟨hr, hw, hlen, hbuf⟩
  | cons x xs ih =>
      intro s ys hr hw hlen hbuf
      rcases lt_or_eq_of_le hlen with hlt | heq
      · -- room left: the push succeeds
        have hk : ys.length + 1 < N := by omega
        obtain ⟨-, hr', hw', hkeep, hnew⟩ := push_succ s x ys.length hr hw hk
        have hbuf' : ∀ (i : ℕ) (h : i < (ys ++ [x]).length),
            (s.push x).2.buffer i = (ys ++ [x]).get ⟨i, h⟩ := by
          intro i h
          have h2 : i < ys.length + 1 := by simpa using h
          rcases Nat.lt_or_ge i ys.length with hi | hi
          · have hg : (ys ++ [x]).get ⟨i, h⟩ = ys.get ⟨i, hi⟩ := by
              simp only [List.get_eq_getElem]
              exact List.getElem_append_left hi
            rw [hg, hkeep i (Nat.ne_of_lt hi)]
            exact hbuf i hi
          · have hieq : i = ys.length := by omega
            subst hieq
            have hg : (ys ++ [x]).get ⟨ys.length, h⟩ = x := by
              simp
            rw [hg]
            exact hnew
        have hsame : (ys ++ [x]) ++ xs.take (N - 1 - (ys ++ [x]).length)
            = ys ++ (x :: xs).take (N - 1 - ys.length) := by
          have : N - 1 - ys.length = (N - 1 - (ys.length + 1)) + 1 := by omega
          rw [this, List.take_succ_cons, List.append_assoc, List.singleton_append]
          simp
        have hres := ih (s.push x).2 (ys ++ [x]) hr'
          (by rw [hw']; simp) (by simp; omega) hbuf'
        rw [hsame] at hres
        have hpushAll : s.pushAll (x :: xs) = ((s.push x).2).pushAll xs := rfl
        rw [hpushAll]
        exact hres
      · -- at capacity: the push fails and every later push keeps failing
        have hfail := push_fail s x hr (by rw [hw, heq]) hN
        have htake : (x :: xs).take (N - 1 - ys.length) = [] := by
          rw [heq, Nat.sub_self, List.take_zero]
        have hres := ih s ys hr hw hlen hbuf
        have htake2 : xs.take (N - 1 - ys.length) = [] := by
          rw [heq, Nat.sub_self, List.take_zero]
        rw [htake2] at hres
        rw [htake]
        have hpushAll : s.pushAll (x :: xs) = ((s.push x).2).pushAll xs := rfl
        rw [hpushAll, hfail]
        exact hres

/-- Draining a well-formed buffer yields the stored elements from the
read cursor on, in storage (FIFO) order. -/
theorem drain_eq {T : Type} {N : ℕ} (hN : 0 < N) :
    ∀ (fuel : ℕ) (s : CircularBuffer T N) (ys : List T) (j : ℕ),
      s.read_pos = j → s.write_pos = ys.length → ys.length ≤ N - 1 → j ≤ ys.length →
      (∀ (i : ℕ) (h : i < ys.length), s.buffer i = ys.get ⟨i, h⟩) →
      ys.length ≤ fuel + j →
      s.drain fuel = ys.drop j := by
  intro fuel
  induction fuel with
  | zero =>
      intro s ys j hr hw hlen hj hbuf hfuel
      have : j = ys.length := by omega
      rw [this, List.drop_length]
      rfl
  | succ fuel ih =>
      intro s ys j hr hw hlen hj hbuf hfuel
      rcases lt_or_eq_of_le hj with hjlt | hjeq
      · have hne : ¬ (j = s.write_pos) := by rw [hw]; omega
        have hpop : s.pop = some (s.buffer j,
            { s with read_pos := (j + 1) % N }) := by
          unfold CircularBuffer.pop
          rw [hr]
          rw [if_neg hne]
        have hmod : (j + 1) % N = j + 1 := Nat.mod_eq_of_lt (by omega)
        simp only [CircularBuffer.drain, hpop]
        rw [hbuf j hjlt]
        have hrec := ih { s with read_pos := (j + 1) % N } ys (j + 1)
          (by simp [hmod]) hw hlen (by omega) hbuf (by omega)
        rw [hrec]
        exact List.get_cons_drop ys ⟨j, hjlt⟩
      · have hcond : s.read_pos = s.write_pos := by rw [hr, hw, hjeq]
        have hpop : s.pop = none := by
          unfold CircularBuffer.pop
          rw [if_pos hcond]
        simp only [CircularBuffer.drain, hpop]
        rw [hjeq, List.drop_length]

/-- C9 amended: the per-consumer buffer is a bounded ring that holds at
most `N - 1` elements; pushing a production sequence into a fresh
buffer accepts exactly its first `N - 1` elements and the consumer
drains them in production (FIFO) order — a push into a full buffer
fails, dropping the NEWEST element, never the oldest. -/
theorem ring_buffer_C9 : ∀ (T : Type) [Inhabited T] (N : ℕ) (xs : List T) (x : T)
    (s : CircularBuffer T N), 0 < N →
    ((CircularBuffer.empty N).pushAll xs).drain N = xs.take (N - 1) ∧
    (s.read_pos = 0 → s.write_pos = N - 1 → s.push x = (false, s)) := by
  intro T _ N xs x s hN
  constructor
  · have hstate := pushAll_state hN xs (CircularBuffer.empty N) [] rfl rfl
      (by simp) (by intro i h; simp at h)
    simp only [List.nil_append, List.length_nil, Nat.sub_zero] at hstate
    obtain ⟨hr, hw, hlen, hbuf⟩ := hstate
    have := drain_eq hN N ((CircularBuffer.empty N).pushAll xs) (xs.take (N - 1)) 0
      hr hw hlen (Nat.zero_le _) hbuf (by omega)
    simpa using this
  · intro hr hw
    exact push_fail s x hr hw hN

/-- C9 counterexample: a ring buffer with 3 slots holds 2 elements;
producing A=1, B=2, C=3 the consumer sees `[1, 2]` — the NEWEST element
C was dropped by the failing third push — not `[2, 3]` as a
drop-oldest policy would give. -/
theorem ring_buffer_C9_cex :
    ((CircularBuffer.empty (T := ℕ) 3).pushAll [1, 2, 3]).drain 3 = [1, 2] ∧
    (((CircularBuffer.empty (T := ℕ) 3).pushAll [1, 2]).push 3).1 = false ∧
    ((CircularBuffer.empty (T := ℕ) 3).pushAll [1, 2, 3]).drain 3 ≠ [2, 3] := by
  refine ⟨by decide, by decide, by decide⟩

/-- C9 witness: the amended statement applied to a fresh 3-slot buffer
and the production sequence [5, 6, 7]. -/
theorem ring_buffer_C9_witness :
    ((CircularBuffer.empty (T := ℕ) 3).pushAll [5, 6, 7]).drain 3 = [5, 6] := by
  have h := (ring_buffer_C9 ℕ 3 [5, 6, 7] 0 (CircularBuffer.empty 3) (by norm_num)).1
  simpa using h

end arbitrage
